import Mathlib

/-!
Verification of the `m2-rslox` bytecode compiler and VM (a Lox-expression
subset): shallow embedding of `src/value.rs`, `src/chunk.rs`, `src/scanner.rs`,
`src/compiler.rs` and `src/vm.rs`, with theorems checking the specification's
claims against it.

Modelling conventions:
* Rust `f64` numbers are modelled as `ℚ` (exact for the integer arithmetic the
  claims exercise; IEEE-754 rounding and NaN are not exercised by any claim).
* Rust panics (`unwrap`, `panic!`, `unreachable!`, failing `try_into`) are
  modelled as explicit `panicked` outcomes / flags.
* Source strings are `List Char`; spans are contiguous sublists (Rust byte
  indices coincide with character counts on the ASCII spans involved).
* Loops are modelled with explicit fuel; every use instantiates the fuel
  large enough that the cut-off case is never reached, and the universally
  quantified theorems hold for every fuel value.
-/

set_option maxRecDepth 20000

/- `Rat.add` and friends are `@[irreducible]` in core; re-allow unfolding so
that concrete executions of the embedded interpreter evaluate by `decide`. -/
set_option allowUnsafeReducibility true
attribute [local semireducible] Rat.add Rat.sub Rat.mul Rat.div Rat.neg Rat.inv

namespace RsLox

/-! ## `src/value.rs` -/

/-- `Value` from `value.rs`: `Nil`, `Bool(bool)`, `Number(f64)`
(the `f64` payload is modelled as `ℚ`). -/
inductive Value where
  | nil
  | bool (b : Bool)
  | number (q : ℚ)
  deriving DecidableEq, Repr

namespace Value

/-- `Value::is_falsey`: `Nil` and `Bool(false)` are falsey. -/
def is_falsey : Value → Bool
  | .nil => true
  | .bool false => true
  | _ => false

/-- Discriminates the `Number` variant (Rust `if let Value::Number(_) = …`). -/
def isNumber : Value → Bool
  | .number _ => true
  | _ => false

/-- Derived `PartialEq`: same-variant payload equality, cross-variant `false`. -/
def valueEq : Value → Value → Bool
  | .nil, .nil => true
  | .bool a, .bool b => a = b
  | .number a, .number b => a = b
  | _, _ => false

/-- `ops::Neg for Value`: only `Number` negates, the other arm is
`panic!("Cannot negate non-number Value")`, modelled as `none`. -/
def neg : Value → Option Value
  | .number v => some (.number (-v))
  | _ => none

/-- `ops::Add for Value`: `panic!` arm modelled as `none`. -/
def add : Value → Value → Option Value
  | .number a, .number b => some (.number (a + b))
  | _, _ => none

/-- `ops::Sub for Value`: `panic!` arm modelled as `none`. -/
def sub : Value → Value → Option Value
  | .number a, .number b => some (.number (a - b))
  | _, _ => none

/-- `ops::Mul for Value`: `panic!` arm modelled as `none`. -/
def mul : Value → Value → Option Value
  | .number a, .number b => some (.number (a * b))
  | _, _ => none

/-- `ops::Div for Value`: `panic!` arm modelled as `none`.
(`ℚ` division by zero yields `0` where `f64` yields `inf`; no claim
divides by zero.) -/
def div : Value → Value → Option Value
  | .number a, .number b => some (.number (a / b))
  | _, _ => none

/-- Rust `Display` for a number: `{}` on `f64` prints integral values without
a fractional part (`7.0` prints as `7`). The model is exact for integers,
which is all the claims print; non-integral rationals are rendered as
`num/den` (a stand-in for the shortest-float form, unexercised). -/
def displayNumber (q : ℚ) : String :=
  if q.den = 1 then toString q.num else toString q.num ++ "/" ++ toString q.den

/-- `Display for Value` (`value.rs`): `nil`, `true`/`false`, number display. -/
def display : Value → String
  | .nil => "nil"
  | .bool b => if b then "true" else "false"
  | .number q => displayNumber q

end Value

/-! ## `src/chunk.rs` -/

/-- `OpCode` from `chunk.rs`. The variants `Not`, `Equal`, `Greater`, `Less`
are *Modelled from the spec*: `compiler.rs` emits `OpCode::Not`, `OpCode::Equal`,
`OpCode::Greater` and `OpCode::Less`, but the `OpCode` enum in `src/chunk.rs`
(and the matching VM arms in `src/vm.rs`) do not define them; the spec's §3
opcode table is used for the missing variants. The `u8` operand of `Constant`
is modelled as `Nat` (creation via `add_constant` enforces `≤ 255`). -/
inductive OpCode where
  | Constant (id : Nat)
  | Nil
  | True
  | False
  | Add
  | Substract
  | Multiply
  | Divide
  | Negate
  | Return
  | Not
  | Equal
  | Greater
  | Less
  deriving DecidableEq, Repr

/-- `Chunk` from `chunk.rs`: parallel `code`/`lines` plus the constant pool. -/
structure Chunk where
  code : List OpCode
  lines : List Nat
  constants : List Value
  deriving DecidableEq, Repr

namespace Chunk

/-- `Chunk::new`. -/
def new : Chunk := ⟨[], [], []⟩

/-- `Chunk::write`: appends in lockstep to `code` and `lines`. -/
def write (c : Chunk) (op : OpCode) (line : Nat) : Chunk :=
  { c with code := c.code ++ [op], lines := c.lines ++ [line] }

/-- `Chunk::add_constant`: pushes the value, then returns
`(constants.len() - 1).try_into().unwrap()`. The `usize → u8` conversion
fails (Rust panic, modelled as `none`) when the new index exceeds 255. -/
def add_constant (c : Chunk) (v : Value) : Option Nat × Chunk :=
  let cs := c.constants ++ [v]
  let id := cs.length - 1
  (if id ≤ 255 then some id else none, { c with constants := cs })

end Chunk

/-! ## `src/scanner.rs` -/

/-- `TokenType` from `scanner.rs`. -/
inductive TokenType where
  | LeftParen | RightParen | LeftBrace | RightBrace
  | Comma | Dot | Minus | Plus | Semicolon | Slash | Star
  | Bang | BangEqual | Equal | EqualEqual
  | Greater | GreaterEqual | Less | LessEqual
  | Identifier | String | Number
  | And | Class | Else | False | For | Fun | If | Nil | Or | Print
  | Return | Super | This | True | Var | While
  deriving DecidableEq, Repr

/-- `Token` from `scanner.rs`: kind, source span, line number. -/
structure Token where
  token_type : TokenType
  span : List Char
  line : Nat
  deriving DecidableEq, Repr

/-- The static error messages of the scanner and the compiler, kept
structured instead of as raw strings. The Rust texts are:
`unexpectedCharacter` = Unexpected character; `unterminatedString` =
Unterminated string; `expectedExpression` = Expected expression;
`expectedEndOfExpression` = Expected end of expression;
`expectedRightParen` = Expected rparen after expression. -/
inductive ErrMsg where
  | unexpectedCharacter
  | unterminatedString
  | expectedExpression
  | expectedEndOfExpression
  | expectedRightParen
  deriving DecidableEq, Repr

/-- `Scanner` from `scanner.rs`: remaining source plus the line counter. -/
structure Scanner where
  source : List Char
  line : Nat
  deriving DecidableEq, Repr

/-- The outcome of `Scanner::scan_token` (`ScanResult` in the source):
`Ok(Some(tok))` / `Ok(None)` / `Err(msg)`, plus `panicked` for the
`unwrap` inside `Scanner::identifier` that fails when an identifier
runs to the very end of the input. -/
inductive ScanOut where
  | tok (t : Token)
  | eof
  | err (msg : ErrMsg)
  | panicked
  deriving DecidableEq, Repr

namespace Scanner

/-- `Scanner::skip_whitespace`, with explicit fuel for its `loop`:
trim non-newline whitespace, then either consume a `//` comment and loop,
consume a newline (bumping the line counter) and loop, or stop. -/
def skipWhitespaceF : Nat → Scanner → Scanner
  | 0, sc => sc
  | fuel + 1, sc =>
    let src := sc.source.dropWhile (fun c => c.isWhitespace && c != '\n')
    match src with
    | '/' :: rest =>
      if rest.headD '\x00' == '/' then
        skipWhitespaceF fuel ⟨src.dropWhile (fun c => c != '\n'), sc.line⟩
      else
        ⟨src, sc.line⟩
    | '\n' :: rest => skipWhitespaceF fuel ⟨rest, sc.line + 1⟩
    | _ => ⟨src, sc.line⟩

/-- `skip_whitespace` with enough fuel: every loop iteration consumes at
least one character, so `length + 1` iterations always reach the exit. -/
def skipWs (sc : Scanner) : Scanner :=
  skipWhitespaceF (sc.source.length + 1) sc

/-- `Scanner::make_token`: split the source at `length`, the span is the
front part and the token carries the *current* line counter. -/
def make_token (sc : Scanner) (tt : TokenType) (length : Nat) : Token × Scanner :=
  (⟨tt, sc.source.take length, sc.line⟩, ⟨sc.source.drop length, sc.line⟩)

/-- `make_token` wrapped as a `scan_token` result. -/
def mkTok (sc : Scanner) (tt : TokenType) (length : Nat) : ScanOut × Scanner :=
  ((ScanOut.tok (sc.make_token tt length).1), (sc.make_token tt length).2)

/-- The body walk of `Scanner::string` over the characters after the opening
quote: returns (`some` consumed-length-up-to-and-including the closing quote,
newline count seen), or (`none`, newline count of the whole remainder) when
the string is unterminated. -/
def strBody : List Char → Option Nat × Nat
  | [] => (none, 0)
  | c :: cs =>
    if c == '"' then (some 1, 0)
    else
      let r := strBody cs
      (r.1.map fun k => k + 1, (if c == '\n' then 1 else 0) + r.2)

/-- `Scanner::string`: scan to the matching quote, incrementing the line
counter at embedded newlines *before* the token is made, so the token
carries the updated counter. Unterminated: count every remaining newline,
advance one character and report the error. -/
def stringScan (sc : Scanner) : ScanOut × Scanner :=
  match sc.source with
  | [] => (.panicked, sc)
  | _ :: rest =>
    match strBody rest with
    | (some k, nl) =>
      let lin := sc.line + nl
      (.tok ⟨.String, sc.source.take (k + 1), lin⟩, ⟨sc.source.drop (k + 1), lin⟩)
    | (none, nl) => (.err .unterminatedString, ⟨rest, sc.line + nl⟩)

/-- `Scanner::number`: a run of digits, optionally followed by `.` and a
further digit run; the `.` is only part of the number if a digit follows. -/
def numberScan (sc : Scanner) : ScanOut × Scanner :=
  let src := sc.source
  let k1 := (src.takeWhile Char.isDigit).length
  let length :=
    match src.drop k1 with
    | [] => src.length
    | e :: es =>
      if e == '.' && (es.headD '\x00').isDigit then
        k1 + 2 + ((src.drop (k1 + 2)).takeWhile Char.isDigit).length
      else k1
  (.tok ⟨.Number, src.take length, sc.line⟩, ⟨src.drop length, sc.line⟩)

/-- Rust `c.is_ascii_alphanumeric() || c == '_'` (identifier continuation). -/
def isIdentChar (c : Char) : Bool := c.isAlphanum || c == '_'

/-- The identifier start class of `scan_token`: `'A'..='Z' | 'a'..='z' | '_'`. -/
def isAlphaUnder (c : Char) : Bool :=
  ('A' ≤ c && c ≤ 'Z') || ('a' ≤ c && c ≤ 'z') || c == '_'

/-- `Scanner::identifier_type`: match the first character and the remaining
characters of the span against the keyword table; each fallthrough is
`Identifier`. Rust reads the first character with `unwrap_or_default()`,
whose `char` default is `NUL`. -/
def identifier_type (span : List Char) : TokenType :=
  let c := span.headD '\x00'
  let r := span.tail
  if c == 'a' then (if r == ['n', 'd'] then .And else .Identifier)
  else if c == 'c' then (if r == ['l', 'a', 's', 's'] then .Class else .Identifier)
  else if c == 'e' then (if r == ['l', 's', 'e'] then .Else else .Identifier)
  else if c == 'f' then
    (let c2 := r.headD '\x00'
     let r2 := r.tail
     if c2 == 'a' then (if r2 == ['l', 's', 'e'] then .False else .Identifier)
     else if c2 == 'o' then (if r2 == ['r'] then .For else .Identifier)
     else if c2 == 'u' then (if r2 == ['n'] then .Fun else .Identifier)
     else .Identifier)
  else if c == 'i' then (if r == ['f'] then .If else .Identifier)
  else if c == 'n' then (if r == ['i', 'l'] then .Nil else .Identifier)
  else if c == 'o' then (if r == ['r'] then .Or else .Identifier)
  else if c == 'p' then (if r == ['r', 'i', 'n', 't'] then .Print else .Identifier)
  else if c == 'r' then (if r == ['e', 't', 'u', 'r', 'n'] then .Return else .Identifier)
  else if c == 's' then (if r == ['u', 'p', 'e', 'r'] then .Super else .Identifier)
  else if c == 't' then
    (let c2 := r.headD '\x00'
     let r2 := r.tail
     if c2 == 'h' then (if r2 == ['i', 's'] then .This else .Identifier)
     else if c2 == 'r' then (if r2 == ['u', 'e'] then .True else .Identifier)
     else .Identifier)
  else if c == 'v' then (if r == ['a', 'r'] then .Var else .Identifier)
  else if c == 'w' then (if r == ['h', 'i', 'l', 'e'] then .While else .Identifier)
  else .Identifier

/-- `Scanner::identifier`: the span runs to the first non-identifier
character after position 0. Rust finds that character with
`.skip(1).skip_while(…).next().unwrap()`, which *panics* when the
identifier extends to the end of the source (`dropWhile` empty below). -/
def identifierScan (sc : Scanner) : ScanOut × Scanner :=
  match sc.source with
  | [] => (.panicked, sc)
  | _ :: rest =>
    match rest.dropWhile isIdentChar with
    | [] => (.panicked, sc)
    | _ :: _ =>
      let pos := 1 + (rest.takeWhile isIdentChar).length
      let span := sc.source.take pos
      (.tok ⟨identifier_type span, span, sc.line⟩, ⟨sc.source.drop pos, sc.line⟩)

/-- `Scanner::scan_token`: skip whitespace, then dispatch on the first
character (string / number / identifier / two-char operators / one-char
punctuation / `Unexpected character`). -/
def scan_token (sc0 : Scanner) : ScanOut × Scanner :=
  let sc := skipWs sc0
  match sc.source with
  | [] => (.eof, sc)
  | ch :: rest =>
    let nextCh := rest.headD '\x00'
    if ch == '"' then sc.stringScan
    else if ch.isDigit then sc.numberScan
    else if isAlphaUnder ch then sc.identifierScan
    else if ch == '!' && nextCh == '=' then sc.mkTok .BangEqual 2
    else if ch == '=' && nextCh == '=' then sc.mkTok .EqualEqual 2
    else if ch == '<' && nextCh == '=' then sc.mkTok .LessEqual 2
    else if ch == '>' && nextCh == '=' then sc.mkTok .GreaterEqual 2
    else if ch == '(' then sc.mkTok .LeftParen 1
    else if ch == ')' then sc.mkTok .RightParen 1
    else if ch == '{' then sc.mkTok .LeftBrace 1
    else if ch == '}' then sc.mkTok .RightBrace 1
    else if ch == ';' then sc.mkTok .Semicolon 1
    else if ch == ',' then sc.mkTok .Comma 1
    else if ch == '.' then sc.mkTok .Dot 1
    else if ch == '-' then sc.mkTok .Minus 1
    else if ch == '+' then sc.mkTok .Plus 1
    else if ch == '/' then sc.mkTok .Slash 1
    else if ch == '*' then sc.mkTok .Star 1
    else if ch == '!' then sc.mkTok .Bang 1
    else if ch == '=' then sc.mkTok .Equal 1
    else if ch == '<' then sc.mkTok .Less 1
    else if ch == '>' then sc.mkTok .Greater 1
    else (.err .unexpectedCharacter, ⟨sc.source.drop 1, sc.line⟩)

end Scanner

/-! ## `src/compiler.rs` -/

/-- `Precedence` from `compiler.rs`, lowest to highest. -/
inductive Precedence where
  | None | Assignment | Or | And | Equality | Comparison
  | Term | Factor | Unary | Call | Primary
  deriving DecidableEq, Repr

namespace Precedence

/-- The derived `PartialOrd`/`Ord` of the Rust enum, via discriminant rank. -/
def rank : Precedence → Nat
  | .None => 0 | .Assignment => 1 | .Or => 2 | .And => 3 | .Equality => 4
  | .Comparison => 5 | .Term => 6 | .Factor => 7 | .Unary => 8 | .Call => 9
  | .Primary => 10

/-- `Precedence::below`: the next level up (saturating at `Primary`). -/
def below : Precedence → Precedence
  | .None => .None
  | .Assignment => .Or
  | .Or => .And
  | .And => .Equality
  | .Equality => .Comparison
  | .Comparison => .Term
  | .Term => .Factor
  | .Factor => .Unary
  | .Unary => .Call
  | .Call => .Primary
  | .Primary => .Primary

end Precedence

/-- The prefix parse functions of the rule table, as tags dispatched
centrally (the Rust table stores `fn` pointers to these methods). -/
inductive PrefixFnTag where
  | grouping | unary | number | literal
  deriving DecidableEq, Repr

/-- The infix parse functions of the rule table (only `binary` exists). -/
inductive InfixFnTag where
  | binary
  deriving DecidableEq, Repr

/-- `ParseRule` from `compiler.rs`. -/
structure ParseRule where
  prefixFn : Option PrefixFnTag
  infixFn : Option InfixFnTag
  precedence : Precedence
  deriving DecidableEq, Repr

/-- The `Into<ParseRule> for TokenType` table. -/
def ruleOf : TokenType → ParseRule
  | .LeftParen => ⟨some .grouping, none, .None⟩
  | .Minus => ⟨some .unary, some .binary, .Term⟩
  | .Plus => ⟨none, some .binary, .Term⟩
  | .Slash => ⟨none, some .binary, .Factor⟩
  | .Star => ⟨none, some .binary, .Factor⟩
  | .Number => ⟨some .number, none, .None⟩
  | .False => ⟨some .literal, none, .None⟩
  | .True => ⟨some .literal, none, .None⟩
  | .Nil => ⟨some .literal, none, .None⟩
  | .Bang => ⟨some .unary, none, .None⟩
  | .BangEqual => ⟨none, some .binary, .Equality⟩
  | .EqualEqual => ⟨none, some .binary, .Equality⟩
  | .Greater => ⟨none, some .binary, .Comparison⟩
  | .GreaterEqual => ⟨none, some .binary, .Comparison⟩
  | .Less => ⟨none, some .binary, .Comparison⟩
  | .LessEqual => ⟨none, some .binary, .Comparison⟩
  | _ => ⟨none, none, .None⟩

/-- One recorded compile-error report: Rust prints
`[line L] Error at span: msg` (or `Error at end` when no token). -/
structure ErrRec where
  line : Nat
  atSpan : Option (List Char)
  msg : ErrMsg
  deriving DecidableEq, Repr

/-- `Parser` state from `compiler.rs` plus the chunk under construction
(`compiling_chunk`, always present during `compile`), the list of emitted
error reports, and a sticky `panicked` flag modelling a Rust panic (after
which nothing further is observable). -/
structure PState where
  scanner : Scanner
  previous : Option Token
  current : Option Token
  had_error : Bool
  panic_mode : Bool
  chunk : Chunk
  errors : List ErrRec
  panicked : Bool
  deriving DecidableEq, Repr

/-- `ErrorSource` from `compiler.rs`. -/
inductive ErrorSource where
  | current | previous

namespace PState

/-- `Parser::error_at`: suppressed while in panic mode; records the report
and latches `panic_mode` and `had_error`. -/
def errorAt (src : ErrorSource) (msg : ErrMsg) (st : PState) : PState :=
  if st.panicked then st
  else if st.panic_mode then st
  else
    let t := match src with | .current => st.current | .previous => st.previous
    let r := match t with
      | some t => ErrRec.mk t.line (some t.span) msg
      | none => ErrRec.mk st.scanner.line none msg
    { st with panic_mode := true, errors := st.errors ++ [r], had_error := true }

/-- `Parser::error`: report at the previous token. -/
def errorPrev (msg : ErrMsg) (st : PState) : PState := errorAt .previous msg st

/-- `Parser::error_at_current`. -/
def errorAtCurrent (msg : ErrMsg) (st : PState) : PState := errorAt .current msg st

/-- The retry loop inside `Parser::advance`: scan errors are reported at the
current token (just taken, hence `None` → reported at end) and scanning
retries; each retry has consumed at least one character. -/
def advanceLoop : Nat → PState → PState
  | 0, st => st
  | fuel + 1, st =>
    match Scanner.scan_token st.scanner with
    | (.tok t, sc) => { st with scanner := sc, current := some t }
    | (.eof, sc) => { st with scanner := sc, current := none }
    | (.panicked, sc) => { st with scanner := sc, panicked := true }
    | (.err m, sc) => advanceLoop fuel (errorAtCurrent m { st with scanner := sc })

/-- `Parser::advance`: shift `current` into `previous`, then scan. -/
def advance (st : PState) : PState :=
  if st.panicked then st
  else advanceLoop (st.scanner.source.length + 1)
    { st with previous := st.current, current := none }

/-- `Parser::consume`. -/
def consume (tt : TokenType) (msg : ErrMsg) (st : PState) : PState :=
  if st.panicked then st
  else match st.current with
    | some t => if t.token_type = tt then advance st else errorAtCurrent msg st
    | none => errorAtCurrent msg st

/-- `Compiler::emit`: append with the line of the previous token (0 if none). -/
def emit (op : OpCode) (st : PState) : PState :=
  if st.panicked then st
  else
    let line := match st.previous with | some t => t.line | none => 0
    { st with chunk := st.chunk.write op line }

/-- `Compiler::emit_constant` via `make_constant` / `Chunk::add_constant`;
the failing `try_into().unwrap()` on a full pool is a panic. -/
def emitConstant (v : Value) (st : PState) : PState :=
  if st.panicked then st
  else
    match st.chunk.add_constant v with
    | (some id, c) => emit (.Constant id) { st with chunk := c }
    | (none, c) => { st with chunk := c, panicked := true }

end PState

/-- The digit fold used to model `str::parse::<f64>` on scanned spans. -/
def digitsVal (l : List Char) : Nat :=
  l.foldl (fun a c => a * 10 + (c.toNat - 48)) 0

/-- `span.parse::<f64>().unwrap()` on a scanned number span
(`digits` or `digits.digits`), modelled exactly in `ℚ`. -/
def numParse (span : List Char) : ℚ :=
  let ip := span.takeWhile (fun c => c != '.')
  match span.dropWhile (fun c => c != '.') with
  | [] => (digitsVal ip : ℚ)
  | _ :: frac => (digitsVal ip : ℚ) + (digitsVal frac : ℚ) / ((10 : ℚ) ^ frac.length)

namespace PState

/-- `Compiler::number`: parse the previous span, emit its constant.
(`previous` is `unwrap`ped in Rust.) -/
def numberFn (st : PState) : PState :=
  match st.previous with
  | some t => emitConstant (.number (numParse t.span)) st
  | none => { st with panicked := true }

/-- `Compiler::literal`: the `unreachable!()` arm is a panic. -/
def literalFn (st : PState) : PState :=
  match st.previous with
  | some t =>
    match t.token_type with
    | .False => emit .False st
    | .True => emit .True st
    | .Nil => emit .Nil st
    | _ => { st with panicked := true }
  | none => { st with panicked := true }

/-- `Compiler::grouping`, parameterised by the recursive `expression` call. -/
def groupingFn (expr : PState → PState) (st : PState) : PState :=
  consume .RightParen .expectedRightParen (expr st)

/-- `Compiler::unary`, parameterised by the recursive `parse_precedence`. -/
def unaryFn (recur : Precedence → PState → PState) (st : PState) : PState :=
  match st.previous with
  | some t =>
    let st1 := recur .Unary st
    (match t.token_type with
     | .Bang => emit .Not st1
     | .Minus => emit .Negate st1
     | _ => { st1 with panicked := true })
  | none => { st with panicked := true }

/-- `Compiler::binary`: right operand at one level above the operator, then
the operator-specific emission (`!=` → `Equal, Not`; `>=` → `Less, Not`;
`<=` → `Greater, Not`). -/
def binaryFn (recur : Precedence → PState → PState) (st : PState) : PState :=
  match st.previous with
  | some t =>
    let st1 := recur (ruleOf t.token_type).precedence.below st
    (match t.token_type with
     | .Plus => emit .Add st1
     | .Minus => emit .Substract st1
     | .Star => emit .Multiply st1
     | .Slash => emit .Divide st1
     | .BangEqual => emit .Not (emit .Equal st1)
     | .EqualEqual => emit .Equal st1
     | .Greater => emit .Greater st1
     | .GreaterEqual => emit .Not (emit .Less st1)
     | .Less => emit .Less st1
     | .LessEqual => emit .Not (emit .Greater st1)
     | _ => { st1 with panicked := true })
  | none => { st with panicked := true }

/-- The precedence of the current (lookahead) token; `None` at end of input. -/
def currentPrecedence (st : PState) : Precedence :=
  match st.current with
  | some t => (ruleOf t.token_type).precedence
  | none => .None

end PState

open PState in
/-- The `loop` inside `parse_precedence`: while the current token's
precedence is at least the threshold, advance and run the infix rule;
parameterised by the recursive `parse_precedence` for `binary`. -/
def infixLoop (recur : Precedence → PState → PState) :
    Nat → Precedence → PState → PState
  | 0, _, st => st
  | fuel + 1, prec, st =>
    if st.panicked then st
    else if (PState.currentPrecedence st).rank < prec.rank then st
    else
      let st1 := advance st
      match st1.previous with
      | none => st1
      | some t =>
        match (ruleOf t.token_type).infixFn with
        | some .binary => infixLoop recur fuel prec (binaryFn recur st1)
        | none => infixLoop recur fuel prec st1

open PState in
/-- `Compiler::parse_precedence`: advance; end-of-input returns silently
(the Rust `None => return`); a missing prefix rule reports
`Expected expression`; otherwise run the prefix function and the infix loop. -/
def parsePrec : Nat → Precedence → PState → PState
  | 0, _, st => st
  | fuel + 1, prec, st =>
    if st.panicked then st
    else
      let st1 := advance st
      match st1.previous with
      | none => st1
      | some t =>
        match (ruleOf t.token_type).prefixFn with
        | none => errorPrev .expectedExpression st1
        | some pf =>
          let st2 :=
            match pf with
            | .number => numberFn st1
            | .literal => literalFn st1
            | .grouping => groupingFn (fun s => parsePrec fuel .Assignment s) st1
            | .unary => unaryFn (fun p s => parsePrec fuel p s) st1
          infixLoop (fun p s => parsePrec fuel p s) fuel prec st2

/-- The outcome of `Compiler::compile`: `Err(())` with the reported errors,
`Ok(chunk)`, or a Rust panic. -/
inductive CompileOut where
  | panicked
  | cerr (errors : List ErrRec)
  | ok (c : Chunk)
  deriving DecidableEq, Repr

/-- Fuel that amply covers a full parse of `src` (each `parse_precedence`
level and loop iteration consumes input; claims about all fuels do not
depend on this choice). -/
def compileFuel (src : List Char) : Nat := 2 * src.length + 16

/-- `Compiler::new`: fresh parser primed with one `advance`. -/
def PState.new (src : List Char) : PState :=
  PState.advance ⟨⟨src, 1⟩, none, none, false, false, Chunk.new, [], false⟩

/-- `Compiler::compile`: parse one expression, report any trailing token as
`Expected end of expression`, always emit the final `Return`
(`end_compiler`), then `Err` iff `had_error`. -/
def compileChars (src : List Char) : CompileOut :=
  let st0 := PState.new src
  let st1 := parsePrec (compileFuel src) .Assignment st0
  let st2 := match st1.current with
    | some _ => PState.errorAtCurrent .expectedEndOfExpression st1
    | none => st1
  let st3 := PState.emit .Return st2
  if st3.panicked then .panicked
  else if st3.had_error then .cerr st3.errors
  else .ok st3.chunk

/-! ## `src/vm.rs` -/

/-- The distinct Rust panics reachable from `VM::run`:
`valueOp` = the `panic!` arms of the `Value` operators; `stack` = `unwrap`
in `pop`/`peek` on a too-short stack; `constIndex` = out-of-bounds indexing
in `read_constant`; `outOfBounds` = indexing `code[ip]` past the end;
`lineLookup` = indexing `lines[ip - 1]` in `runtime_error`. -/
inductive PanicKind where
  | valueOp | stack | constIndex | outOfBounds | lineLookup
  deriving DecidableEq, Repr

/-- The VM's mutable state during `run`: instruction pointer, value stack
(top at the head), and the lines written to the diagnostic stream. -/
structure VmSt where
  ip : Nat
  stack : List Value
  output : List String
  deriving DecidableEq, Repr

/-- Result of executing a single instruction. -/
inductive StepRes where
  | next (st : VmSt)
  | halt (st : VmSt)
  | rtError (st : VmSt)
  | panicked (k : PanicKind) (st : VmSt)
  deriving DecidableEq, Repr

/-- `VM::runtime_error`: print the message and `[line L] in script` with
`L = lines[ip - 1]`, then clear the stack. -/
def runtimeError (c : Chunk) (st : VmSt) (msg : String) : StepRes :=
  match c.lines.get? (st.ip - 1) with
  | some l =>
    .rtError { st with stack := [], output := st.output ++ [msg, s!"[line {l}] in script"] }
  | none => .panicked .lineLookup st

/-- `VM::binary_op`: peek the top two (panic if fewer than two on the
stack); both must be `Number`, else the runtime error with the message
as misspelled in `vm.rs`; otherwise pop `b`, pop `a`, push `op(a, b)`. -/
def binaryOp (c : Chunk) (st : VmSt) (f : Value → Value → Option Value) : StepRes :=
  match st.stack with
  | b :: a :: rest =>
    if b.isNumber && a.isNumber then
      match f a b with
      | some r => .next { st with stack := r :: rest }
      | none => .panicked .valueOp st
    else runtimeError c st "Opernds must be numbers"
  | _ => .panicked .stack st

/-- One iteration of the `VM::run` loop: read `code[ip]`, increment `ip`
before dispatching, then execute. The `Not`, `Equal`, `Greater` and `Less`
arms are *Modelled from the spec* (§3/§4.4): `vm.rs` has no arms for them
since its `OpCode` lacks those variants. -/
def step (c : Chunk) (st0 : VmSt) : StepRes :=
  match c.code.get? st0.ip with
  | none => .panicked .outOfBounds st0
  | some op =>
    let st := { st0 with ip := st0.ip + 1 }
    match op with
    | .Return =>
      match st.stack with
      | v :: rest => .halt { st with stack := rest, output := st.output ++ [v.display] }
      | [] => .panicked .stack st
    | .Negate =>
      match st.stack with
      | v :: rest =>
        if v.isNumber then
          match v.neg with
          | some r => .next { st with stack := r :: rest }
          | none => .panicked .valueOp st
        else runtimeError c st "Operand must be a number"
      | [] => .panicked .stack st
    | .Constant id =>
      match c.constants.get? id with
      | some v => .next { st with stack := v :: st.stack }
      | none => .panicked .constIndex st
    | .Nil => .next { st with stack := Value.nil :: st.stack }
    | .True => .next { st with stack := Value.bool true :: st.stack }
    | .False => .next { st with stack := Value.bool false :: st.stack }
    | .Add => binaryOp c st Value.add
    | .Substract => binaryOp c st Value.sub
    | .Multiply => binaryOp c st Value.mul
    | .Divide => binaryOp c st Value.div
    | .Not =>
      match st.stack with
      | v :: rest => .next { st with stack := Value.bool v.is_falsey :: rest }
      | [] => .panicked .stack st
    | .Equal =>
      match st.stack with
      | b :: a :: rest => .next { st with stack := Value.bool (Value.valueEq a b) :: rest }
      | _ => .panicked .stack st
    | .Greater =>
      match st.stack with
      | b :: a :: rest =>
        match a, b with
        | .number x, .number y => .next { st with stack := Value.bool (decide (x > y)) :: rest }
        | _, _ => runtimeError c st "Operands must be numbers"
      | _ => .panicked .stack st
    | .Less =>
      match st.stack with
      | b :: a :: rest =>
        match a, b with
        | .number x, .number y => .next { st with stack := Value.bool (decide (x < y)) :: rest }
        | _, _ => runtimeError c st "Operands must be numbers"
      | _ => .panicked .stack st

/-- Result of a whole `VM::run` call. -/
inductive RunRes where
  | halt (st : VmSt)
  | rtError (st : VmSt)
  | panicked (k : PanicKind) (st : VmSt)
  | fuelOut
  deriving DecidableEq, Repr

/-- The `VM::run` loop with fuel (`ip` strictly increases each step, so
`code.length + 2` iterations always suffice). -/
def runFuel (c : Chunk) : Nat → VmSt → RunRes
  | 0, _ => .fuelOut
  | fuel + 1, st =>
    match step c st with
    | .next st1 => runFuel c fuel st1
    | .halt st1 => .halt st1
    | .rtError st1 => .rtError st1
    | .panicked k st1 => .panicked k st1

/-- `VM::run` from a fresh `interpret`: empty chunks return success
immediately; otherwise loop from `ip = 0` with an empty stack. -/
def vmRun (c : Chunk) : RunRes :=
  if c.code.length = 0 then .halt ⟨0, [], []⟩
  else runFuel c (c.code.length + 2) ⟨0, [], []⟩

/-- The outcome of `VM::interpret` as the driver sees it, together with the
final VM state (printed lines and remaining stack). -/
inductive InterpOut where
  | ok (st : VmSt)
  | compileError (errors : List ErrRec)
  | runtimeError (st : VmSt)
  | panicked
  | fuelOut
  deriving DecidableEq, Repr

/-- `VM::interpret`: compile, then run the chunk; a compile failure never
reaches the VM (driver exit 65), success maps to exit 0, a runtime error
to exit 70. -/
def interpretChars (src : List Char) : InterpOut :=
  match compileChars src with
  | .panicked => .panicked
  | .cerr es => .compileError es
  | .ok c =>
    match vmRun c with
    | .halt st => .ok st
    | .rtError st => .runtimeError st
    | .panicked _ _ => .panicked
    | .fuelOut => .fuelOut

/-- `interpret` on a Lean string literal. -/
def interpretSource (s : String) : InterpOut := interpretChars s.data

/-- Recognises the panic arms of the `Value` operators inside a step result
(the `panic!("Cannot … non-number Value…")` branches of `value.rs`). -/
def isValueOpPanic : StepRes → Bool
  | .panicked .valueOp _ => true
  | _ => false

/-- A source consisting of 257 distinct numeric literals joined by `+`. -/
def overflowSrc : List Char :=
  (String.intercalate "+" ((List.range 257).map fun n => toString (n + 1))).data

/-! ## The chunk well-formedness invariant (claims C7, C8) -/

/-- Well-formedness of a chunk: parallel `code`/`lines`, and every
`Constant` operand indexes into the pool. -/
def ChunkInv (c : Chunk) : Prop :=
  c.code.length = c.lines.length ∧
  ∀ id, OpCode.Constant id ∈ c.code → id < c.constants.length

/-- The compile-time invariant: the chunk is well-formed, and as long as no
panic happened the pool holds at most 256 values. -/
def PInv (st : PState) : Prop :=
  ChunkInv st.chunk ∧ (st.panicked = false → st.chunk.constants.length ≤ 256)

theorem pinv_emit {st : PState} (op : OpCode) (h : PInv st)
    (hop : ∀ id, op = OpCode.Constant id → id < st.chunk.constants.length) :
    PInv (PState.emit op st) := by
  unfold PState.emit
  split
  · exact h
  · obtain ⟨⟨hlen, hmem⟩, hcap⟩ := h
    refine ⟨⟨?_, ?_⟩, hcap⟩
    · simp [Chunk.write, hlen]
    · intro id hid
      simp only [Chunk.write, List.mem_append, List.mem_singleton] at hid
      rcases hid with hid | hid
      · exact hmem id hid
      · exact hop id hid.symm

theorem add_constant_eq (c : Chunk) (v : Value) :
    c.add_constant v =
      ((if c.constants.length ≤ 255 then some c.constants.length else none),
       { c with constants := c.constants ++ [v] }) := by
  unfold Chunk.add_constant
  simp

theorem pinv_emitConstant {st : PState} (v : Value) (h : PInv st) :
    PInv (PState.emitConstant v st) := by
  obtain ⟨⟨hlen, hmem⟩, hcap⟩ := h
  unfold PState.emitConstant
  split
  · exact ⟨⟨hlen, hmem⟩, hcap⟩
  · rw [add_constant_eq]
    by_cases hle : st.chunk.constants.length ≤ 255
    · simp only [hle, if_true]
      apply pinv_emit
      · refine ⟨⟨by simpa using hlen, ?_⟩, ?_⟩
        · intro id hid
          have := hmem id (by simpa using hid)
          simp only [List.length_append, List.length_singleton]
          omega
        · intro _
          simp only [List.length_append, List.length_singleton]
          omega
      · intro id hid
        cases hid
        simp only [List.length_append, List.length_singleton]
        omega
    · simp only [hle, if_false]
      refine ⟨⟨by simpa using hlen, ?_⟩, by simp⟩
      intro id hid
      have := hmem id (by simpa using hid)
      simp only [List.length_append, List.length_singleton]
      omega

theorem pinv_errorAt {st : PState} (src : ErrorSource) (msg : ErrMsg)
    (h : PInv st) : PInv (PState.errorAt src msg st) := by
  unfold PState.errorAt
  split
  · exact h
  · split
    · exact h
    · exact h

theorem pinv_advanceLoop {st : PState} (fuel : Nat) (h : PInv st) :
    PInv (PState.advanceLoop fuel st) := by
  induction fuel generalizing st with
  | zero => exact h
  | succ f ih =>
    unfold PState.advanceLoop
    split
    · exact h
    · exact h
    · exact ⟨h.1, fun hp => Bool.noConfusion hp⟩
    · exact ih (pinv_errorAt _ _ h)

theorem pinv_advance {st : PState} (h : PInv st) : PInv (PState.advance st) := by
  unfold PState.advance
  split
  · exact h
  · exact pinv_advanceLoop _ ⟨h.1, fun _ => h.2 (by rename_i hp; simpa using hp)⟩

theorem pinv_consume {st : PState} (tt : TokenType) (msg : ErrMsg)
    (h : PInv st) : PInv (PState.consume tt msg st) := by
  unfold PState.consume
  split
  · exact h
  · split
    · split
      · exact pinv_advance h
      · exact pinv_errorAt _ _ h
    · exact pinv_errorAt _ _ h

theorem pinv_numberFn {st : PState} (h : PInv st) : PInv (PState.numberFn st) := by
  unfold PState.numberFn
  split
  · exact pinv_emitConstant _ h
  · exact ⟨h.1, by simp⟩

theorem pinv_literalFn {st : PState} (h : PInv st) : PInv (PState.literalFn st) := by
  unfold PState.literalFn
  split
  · split <;> first
      | exact pinv_emit _ h (by intro _ hid; cases hid)
      | exact ⟨h.1, by simp⟩
  · exact ⟨h.1, by simp⟩

theorem pinv_unaryFn {recur : Precedence → PState → PState}
    (hrec : ∀ p s, PInv s → PInv (recur p s)) {st : PState} (h : PInv st) :
    PInv (PState.unaryFn recur st) := by
  unfold PState.unaryFn
  split
  · split <;> first
      | exact pinv_emit _ (hrec _ _ h) (by intro _ hid; cases hid)
      | exact ⟨(hrec _ _ h).1, by simp⟩
  · exact ⟨h.1, by simp⟩

theorem pinv_binaryFn {recur : Precedence → PState → PState}
    (hrec : ∀ p s, PInv s → PInv (recur p s)) {st : PState} (h : PInv st) :
    PInv (PState.binaryFn recur st) := by
  unfold PState.binaryFn
  split
  · split <;> first
      | exact pinv_emit _ (hrec _ _ h) (by intro _ hid; cases hid)
      | exact pinv_emit _ (pinv_emit _ (hrec _ _ h) (by intro _ hid; cases hid))
          (by intro _ hid; cases hid)
      | exact ⟨(hrec _ _ h).1, by simp⟩
  · exact ⟨h.1, by simp⟩

theorem pinv_groupingFn {expr : PState → PState}
    (hexpr : ∀ s, PInv s → PInv (expr s)) {st : PState} (h : PInv st) :
    PInv (PState.groupingFn expr st) :=
  pinv_consume _ _ (hexpr _ h)

theorem pinv_infixLoop {recur : Precedence → PState → PState}
    (hrec : ∀ p s, PInv s → PInv (recur p s)) :
    ∀ fuel prec (st : PState), PInv st → PInv (infixLoop recur fuel prec st) := by
  intro fuel
  induction fuel with
  | zero => intro _ _ h; exact h
  | succ f ih =>
    intro prec st h
    unfold infixLoop
    split
    · exact h
    · split
      · exact h
      · dsimp only
        split
        · exact pinv_advance h
        · split
          · exact ih _ _ (pinv_binaryFn hrec (pinv_advance h))
          · exact ih _ _ (pinv_advance h)

theorem pinv_parsePrec :
    ∀ fuel prec (st : PState), PInv st → PInv (parsePrec fuel prec st) := by
  intro fuel
  induction fuel with
  | zero => intro _ _ h; exact h
  | succ f ih =>
    intro prec st h
    unfold parsePrec
    split
    · exact h
    · dsimp only
      split
      · exact pinv_advance h
      · split
        · exact pinv_errorAt _ _ (pinv_advance h)
        · rename_i pf _
          refine pinv_infixLoop (fun p s hs => ih p s hs) f prec _ ?_
          cases pf with
          | number => exact pinv_numberFn (pinv_advance h)
          | literal => exact pinv_literalFn (pinv_advance h)
          | grouping =>
            exact pinv_groupingFn (fun s hs => ih _ s hs) (pinv_advance h)
          | unary => exact pinv_unaryFn (fun p s hs => ih p s hs) (pinv_advance h)

/-- The initial compile state is well-formed and the invariant survives the
entire `compile` pipeline. -/
theorem pinv_compile_pipeline (src : List Char) :
    PInv (PState.emit .Return
      (match (parsePrec (compileFuel src) .Assignment (PState.new src)).current with
        | some _ => PState.errorAtCurrent .expectedEndOfExpression
            (parsePrec (compileFuel src) .Assignment (PState.new src))
        | none => parsePrec (compileFuel src) .Assignment (PState.new src))) := by
  have h0 : PInv (PState.new src) := by
    refine pinv_advance ⟨⟨rfl, ?_⟩, by simp [Chunk.new]⟩
    intro id hid
    simp [Chunk.new] at hid
  have h1 := pinv_parsePrec (compileFuel src) .Assignment _ h0
  have h2 : PInv (match (parsePrec (compileFuel src) .Assignment (PState.new src)).current with
      | some _ => PState.errorAtCurrent .expectedEndOfExpression
          (parsePrec (compileFuel src) .Assignment (PState.new src))
      | none => parsePrec (compileFuel src) .Assignment (PState.new src)) := by
    split
    · exact pinv_errorAt _ _ h1
    · exact h1
  exact pinv_emit _ h2 (by intro _ hid; cases hid)

/-- A successful compile yields exactly the final pipeline chunk, with the
final state unpanicked. -/
theorem compile_ok_inv {src : List Char} {c : Chunk}
    (h : compileChars src = .ok c) : ChunkInv c ∧ c.constants.length ≤ 256 := by
  have hp := pinv_compile_pipeline src
  unfold compileChars at h
  simp only [] at h
  split at h
  · cases h
  · split at h
    · cases h
    · rename_i hpan _
      cases h
      exact ⟨hp.1, hp.2 (by simpa using hpan)⟩

/-! ## Claim theorems -/

/-! Character-class and list helpers for the scanner claims (C6, C9). -/

theorem uint32_le_toNat {a b : UInt32} : a ≤ b ↔ a.toNat ≤ b.toNat := by
  rw [UInt32.le_def, BitVec.le_def]
  exact Iff.rfl

theorem isDigit_iff (c : Char) :
    c.isDigit = true ↔ 48 ≤ c.toNat ∧ c.toNat ≤ 57 := by
  unfold Char.isDigit
  simp only [Bool.and_eq_true, decide_eq_true_eq, ge_iff_le]
  exact and_congr uint32_le_toNat uint32_le_toNat

theorem isAlphaUnder_iff (c : Char) :
    Scanner.isAlphaUnder c = true ↔
      (65 ≤ c.toNat ∧ c.toNat ≤ 90) ∨ (97 ≤ c.toNat ∧ c.toNat ≤ 122) ∨ c = '_' := by
  unfold Scanner.isAlphaUnder
  simp only [Bool.or_eq_true, Bool.and_eq_true, decide_eq_true_eq, beq_iff_eq,
    Char.le_def, uint32_le_toNat,
    show ('A' : Char).val.toNat = 65 from rfl, show ('Z' : Char).val.toNat = 90 from rfl,
    show ('a' : Char).val.toNat = 97 from rfl, show ('z' : Char).val.toNat = 122 from rfl]
  rw [show Char.toNat c = c.val.toNat from rfl]
  exact or_assoc

theorem alphaUnder_not_digit {c : Char} (h : Scanner.isAlphaUnder c = true) :
    c.isDigit = false := by
  cases hd : c.isDigit
  · rfl
  · rw [isAlphaUnder_iff] at h
    rw [isDigit_iff] at hd
    rcases h with ⟨h1, h2⟩ | ⟨h1, h2⟩ | h1
    · omega
    · omega
    · subst h1
      exact absurd hd (by decide)

theorem alphaUnder_not_ws {c : Char} (h : Scanner.isAlphaUnder c = true) :
    c.isWhitespace = false := by
  cases hw : c.isWhitespace
  · rfl
  · exfalso
    unfold Char.isWhitespace at hw
    simp only [Bool.or_eq_true, decide_eq_true_eq] at hw
    rcases hw with ((hw | hw) | hw) | hw <;> (subst hw; exact absurd h (by decide))

theorem alphaUnder_ne_slash {c : Char} (h : Scanner.isAlphaUnder c = true) :
    c ≠ '/' := by
  intro he
  subst he
  exact absurd h (by decide)

theorem alphaUnder_ne_quote {c : Char} (h : Scanner.isAlphaUnder c = true) :
    (c == '"') = false := by
  cases hq : c == '"'
  · rfl
  · rw [beq_iff_eq] at hq
    subst hq
    exact absurd h (by decide)

theorem alphaUnder_ne_newline {c : Char} (h : Scanner.isAlphaUnder c = true) :
    c ≠ '\n' := by
  intro he
  subst he
  exact absurd h (by decide)

theorem digit_ne_newline {c : Char} (h : c.isDigit = true) : c ≠ '\n' := by
  intro he
  subst he
  exact absurd h (by decide)

theorem identChar_ne_newline {c : Char} (h : Scanner.isIdentChar c = true) :
    c ≠ '\n' := by
  intro he
  subst he
  exact absurd h (by decide)

theorem take_takeWhile (p : Char → Bool) (l : List Char) :
    l.take (l.takeWhile p).length = l.takeWhile p := by
  induction l with
  | nil => rfl
  | cons c cs ih =>
    by_cases hc : p c <;> simp [List.takeWhile_cons, hc, ih]

theorem drop_takeWhile (p : Char → Bool) (l : List Char) :
    l.drop (l.takeWhile p).length = l.dropWhile p := by
  induction l with
  | nil => rfl
  | cons c cs ih =>
    by_cases hc : p c <;> simp [List.takeWhile_cons, List.dropWhile_cons, hc, ih]

theorem mem_takeWhile_pred {p : Char → Bool} {l : List Char} {x : Char}
    (h : x ∈ l.takeWhile p) : p x = true := by
  induction l with
  | nil => cases h
  | cons c cs ih =>
    rw [List.takeWhile_cons] at h
    by_cases hc : p c
    · rw [if_pos hc] at h
      rcases List.mem_cons.mp h with he | hm
      · exact he ▸ hc
      · exact ih hm
    · rw [if_neg hc] at h
      cases h

theorem count_newline_eq_zero {l : List Char} (h : ∀ x ∈ l, x ≠ '\n') :
    l.count '\n' = 0 := by
  rw [List.count_eq_zero]
  intro hm
  exact h _ hm rfl

/-- The newline count accumulated by `strBody` up to the closing quote is
the newline count of the consumed prefix. -/
theorem strBody_some_count {l : List Char} {k nl : Nat}
    (h : Scanner.strBody l = (some k, nl)) : nl = (l.take k).count '\n' := by
  induction l generalizing k nl with
  | nil => exact absurd h (by simp [Scanner.strBody])
  | cons c cs ih =>
    unfold Scanner.strBody at h
    by_cases hc : (c == '"') = true
    · rw [if_pos hc] at h
      obtain ⟨hk, hnl⟩ := Prod.mk.injEq .. ▸ h
      obtain rfl : 1 = k := Option.some.injEq .. ▸ hk
      subst hnl
      rw [beq_iff_eq] at hc
      subst hc
      simp
    · rw [if_neg hc] at h
      rcases hsb : Scanner.strBody cs with ⟨ko, m⟩
      rw [hsb] at h
      rcases ko with _ | k0
      · exact absurd (congrArg Prod.fst h) (by simp)
      · obtain ⟨hk, hnl⟩ := Prod.mk.injEq .. ▸ h
        obtain rfl : k = k0 + 1 := by simpa using hk.symm
        have hm : m = (cs.take k0).count '\n' := ih hsb
        have hnl2 : nl = (if (c == '\n') = true then 1 else 0) + m := by
          simpa using hnl.symm
        rw [List.take_succ_cons, List.count_cons, hnl2, hm]
        by_cases hn : (c == '\n') = true <;> simp [hn] <;> omega

/-- A custom `take_append`: taking the first list plus `n` more. -/
theorem take_append_len (l1 l2 : List Char) (n : Nat) :
    (l1 ++ l2).take (l1.length + n) = l1 ++ l2.take n := by
  induction l1 with
  | nil => simp
  | cons c cs ih => simpa [Nat.succ_add] using ih

/-- `make_token` results, unpacked. -/
theorem mkTok_result {sc : Scanner} {tt : TokenType} {n : Nat} {t : Token}
    {sc2 : Scanner} (h : Scanner.mkTok sc tt n = (.tok t, sc2)) :
    t = ⟨tt, sc.source.take n, sc.line⟩ := by
  unfold Scanner.mkTok Scanner.make_token at h
  exact (ScanOut.tok.inj (Prod.mk.injEq .. ▸ h).1).symm

/-- `Scanner::number` keeps the line counter and scans no newline. -/
theorem numberScan_result {sc : Scanner} {t : Token} {sc2 : Scanner}
    (h : Scanner.numberScan sc = (.tok t, sc2)) :
    t.line = sc.line ∧ t.span.count '\n' = 0 := by
  unfold Scanner.numberScan at h
  dsimp only at h
  obtain ⟨ht, hsc⟩ := Prod.mk.injEq .. ▸ h
  obtain rfl := ScanOut.tok.inj ht
  refine ⟨rfl, count_newline_eq_zero ?_⟩
  intro x hx
  dsimp only at hx
  have hmemT : ∀ y ∈ sc.source.takeWhile Char.isDigit, y ≠ '\n' := by
    intro y hy
    exact digit_ne_newline (mem_takeWhile_pred hy)
  have hsplit := @List.takeWhile_append_dropWhile Char Char.isDigit sc.source
  set T := sc.source.takeWhile Char.isDigit with hT
  rcases hd : sc.source.drop T.length with _ | ⟨e, es⟩
  · rw [hd] at hx
    dsimp only at hx
    rw [hT, drop_takeWhile] at hd
    have hsrc2 : sc.source = T := by
      conv_lhs => rw [← hsplit]
      rw [hd, List.append_nil]
    rw [List.take_length, hsrc2] at hx
    exact hmemT x hx
  · rw [hd] at hx
    dsimp only at hx
    by_cases hdot : (e == '.' && (es.headD '\x00').isDigit) = true
    · rw [if_pos hdot] at hx
      obtain ⟨he, hd2⟩ := Bool.and_eq_true .. ▸ hdot
      rw [beq_iff_eq] at he
      subst he
      rcases es with _ | ⟨e2, es2⟩
      · rw [List.headD_nil] at hd2
        exact absurd hd2 (by decide)
      · rw [List.headD_cons] at hd2
        rw [hT, drop_takeWhile] at hd
        have hsplit2 : sc.source = T ++ '.' :: e2 :: es2 := by
          conv_lhs => rw [← hsplit]
          rw [hd]
        have hdrop2 : sc.source.drop (T.length + 2) = es2 := by
          conv_lhs => rw [hsplit2]
          rw [show T.length + 2 = (T ++ ['.', e2]).length from by simp]
          rw [show T ++ '.' :: e2 :: es2 = (T ++ ['.', e2]) ++ es2 from by simp]
          rw [List.drop_left]
        rw [hdrop2] at hx
        rw [Nat.add_assoc] at hx
        conv at hx => rw [hsplit2]
        rw [take_append_len] at hx
        rcases List.mem_append.mp hx with hx1 | hx2
        · exact hmemT x hx1
        · rw [show (2 + (es2.takeWhile Char.isDigit).length) =
            ((es2.takeWhile Char.isDigit).length) + 1 + 1 from by omega] at hx2
          rw [List.take_succ_cons, List.take_succ_cons, take_takeWhile] at hx2
          rcases List.mem_cons.mp hx2 with hx3 | hx4
          · subst hx3; decide
          · rcases List.mem_cons.mp hx4 with hx5 | hx6
            · subst hx5; exact digit_ne_newline hd2
            · exact digit_ne_newline (mem_takeWhile_pred hx6)
    · rw [if_neg hdot] at hx
      rw [hT, take_takeWhile, ← hT] at hx
      exact hmemT x hx

/-- `Scanner::identifier` (on success) keeps the line counter, and its span
is the head character plus identifier-class characters. -/
theorem identifierScan_result {sc : Scanner} {t : Token} {sc2 : Scanner}
    (h : Scanner.identifierScan sc = (.tok t, sc2)) :
    t.line = sc.line ∧
    ∀ x ∈ t.span, x = sc.source.headD '\x00' ∨ Scanner.isIdentChar x = true := by
  unfold Scanner.identifierScan at h
  rcases hsrc2 : sc.source with _ | ⟨c0, rest⟩
  · rw [hsrc2] at h
    exact absurd h (by simp)
  · rw [hsrc2] at h
    dsimp only at h
    rcases hdw : rest.dropWhile Scanner.isIdentChar with _ | ⟨d, ds⟩
    · rw [hdw] at h
      exact absurd h (by simp)
    · rw [hdw] at h
      dsimp only at h
      obtain ⟨ht, hsc⟩ := Prod.mk.injEq .. ▸ h
      obtain rfl := ScanOut.tok.inj ht
      refine ⟨rfl, ?_⟩
      intro x hx
      dsimp only at hx
      rw [Nat.add_comm, List.take_succ_cons, take_takeWhile] at hx
      rw [List.headD_cons]
      rcases List.mem_cons.mp hx with hx1 | hx2
      · exact Or.inl hx1
      · exact Or.inr (mem_takeWhile_pred hx2)

/-- The sixteen reserved words as the specification describes the
classification (claim C9): a span character-for-character equal to a
keyword gets that keyword's kind; every other span is `Identifier`. -/
def kwSpec (s : List Char) : TokenType :=
  if s = ['a', 'n', 'd'] then .And
  else if s = ['c', 'l', 'a', 's', 's'] then .Class
  else if s = ['e', 'l', 's', 'e'] then .Else
  else if s = ['f', 'a', 'l', 's', 'e'] then .False
  else if s = ['f', 'o', 'r'] then .For
  else if s = ['f', 'u', 'n'] then .Fun
  else if s = ['i', 'f'] then .If
  else if s = ['n', 'i', 'l'] then .Nil
  else if s = ['o', 'r'] then .Or
  else if s = ['p', 'r', 'i', 'n', 't'] then .Print
  else if s = ['r', 'e', 't', 'u', 'r', 'n'] then .Return
  else if s = ['s', 'u', 'p', 'e', 'r'] then .Super
  else if s = ['t', 'h', 'i', 's'] then .This
  else if s = ['t', 'r', 'u', 'e'] then .True
  else if s = ['v', 'a', 'r'] then .Var
  else if s = ['w', 'h', 'i', 'l', 'e'] then .While
  else .Identifier

/-- The code's keyword classifier agrees with the spec's sixteen-keyword
lookup on *every* span. -/
theorem identifier_type_eq_kwSpec (s : List Char) :
    Scanner.identifier_type s = kwSpec s := by
  rcases s with _ | ⟨c, r⟩
  · rfl
  · rcases r with _ | ⟨c2, r2⟩
    · simp [Scanner.identifier_type, kwSpec]
    · by_cases hca : c = 'a'
      · subst hca; simp [Scanner.identifier_type, kwSpec]
      · by_cases hcc : c = 'c'
        · subst hcc; simp [Scanner.identifier_type, kwSpec, hca]
        · by_cases hce : c = 'e'
          · subst hce; simp [Scanner.identifier_type, kwSpec, hca, hcc]
          · by_cases hcf : c = 'f'
            · subst hcf
              by_cases h2a : c2 = 'a'
              · subst h2a; simp [Scanner.identifier_type, kwSpec]
              · by_cases h2o : c2 = 'o'
                · subst h2o; simp [Scanner.identifier_type, kwSpec]
                · by_cases h2u : c2 = 'u'
                  · subst h2u; simp [Scanner.identifier_type, kwSpec]
                  · simp [Scanner.identifier_type, kwSpec, h2a, h2o, h2u]
            · by_cases hci : c = 'i'
              · subst hci; simp [Scanner.identifier_type, kwSpec, hca, hcc, hce, hcf]
              · by_cases hcn : c = 'n'
                · subst hcn; simp [Scanner.identifier_type, kwSpec, hca, hcc, hce, hcf, hci]
                · by_cases hco : c = 'o'
                  · subst hco; simp [Scanner.identifier_type, kwSpec, hca, hcc, hce, hcf, hci, hcn]
                  · by_cases hcp : c = 'p'
                    · subst hcp
                      simp [Scanner.identifier_type, kwSpec, hca, hcc, hce, hcf, hci, hcn, hco]
                    · by_cases hcr : c = 'r'
                      · subst hcr
                        simp [Scanner.identifier_type, kwSpec, hca, hcc, hce, hcf, hci, hcn,
                          hco, hcp]
                      · by_cases hcs : c = 's'
                        · subst hcs
                          simp [Scanner.identifier_type, kwSpec, hca, hcc, hce, hcf, hci,
                            hcn, hco, hcp, hcr]
                        · by_cases hct : c = 't'
                          · subst hct
                            by_cases h2h : c2 = 'h'
                            · subst h2h; simp [Scanner.identifier_type, kwSpec]
                            · by_cases h2r : c2 = 'r'
                              · subst h2r; simp [Scanner.identifier_type, kwSpec]
                              · simp [Scanner.identifier_type, kwSpec, h2h, h2r]
                          · by_cases hcv : c = 'v'
                            · subst hcv
                              simp [Scanner.identifier_type, kwSpec, hca, hcc, hce, hcf,
                                hci, hcn, hco, hcp, hcr, hcs, hct]
                            · by_cases hcw : c = 'w'
                              · subst hcw
                                simp [Scanner.identifier_type, kwSpec, hca, hcc, hce, hcf,
                                  hci, hcn, hco, hcp, hcr, hcs, hct, hcv]
                              · simp [Scanner.identifier_type, kwSpec, hca, hcc, hce, hcf,
                                  hci, hcn, hco, hcp, hcr, hcs, hct, hcv, hcw]

/-- `skip_whitespace` does nothing when the first character is not
whitespace, not a slash and not a newline. -/
theorem skipWs_noop {sc : Scanner} {c : Char} {rest : List Char}
    (hsrc : sc.source = c :: rest) (hws : c.isWhitespace = false)
    (hsl : c ≠ '/') (hnl : c ≠ '\n') :
    Scanner.skipWs sc = sc := by
  have hpred : (c.isWhitespace && c != '\n') = false := by simp [hws]
  unfold Scanner.skipWs
  simp only [Scanner.skipWhitespaceF]
  rw [hsrc, List.dropWhile_cons, hpred]
  rw [if_neg (by simp)]
  split
  · rename_i rest2 heq
    exact absurd (List.cons.inj heq).1 hsl
  · rename_i rest2 heq
    exact absurd (List.cons.inj heq).1 hnl
  · rw [← hsrc]

/-! Helpers for C5: symbolic execution of the compiler on number-literal
operand sources. -/

theorem digit_not_ws {c : Char} (h : c.isDigit = true) : c.isWhitespace = false := by
  cases hw : c.isWhitespace
  · rfl
  · exfalso
    unfold Char.isWhitespace at hw
    simp only [Bool.or_eq_true, decide_eq_true_eq] at hw
    rcases hw with ((hw | hw) | hw) | hw <;> (subst hw; exact absurd h (by decide))

theorem digit_ne_slash {c : Char} (h : c.isDigit = true) : c ≠ '/' := by
  intro he
  subst he
  exact absurd h (by decide)

theorem digit_ne_quote {c : Char} (h : c.isDigit = true) : (c == '"') = false := by
  cases hq : c == '"'
  · rfl
  · rw [beq_iff_eq] at hq
    subst hq
    exact absurd h (by decide)

/-- One-step unfolding of the `advance` retry loop. -/
theorem advanceLoop_succ (f : Nat) (st : PState) :
    PState.advanceLoop (f + 1) st =
      match Scanner.scan_token st.scanner with
      | (.tok t, sc) => { st with scanner := sc, current := some t }
      | (.eof, sc) => { st with scanner := sc, current := none }
      | (.panicked, sc) => { st with scanner := sc, panicked := true }
      | (.err m, sc) =>
        PState.advanceLoop f (PState.errorAtCurrent m { st with scanner := sc }) := rfl

/-- One-step unfolding of `parse_precedence`. -/
theorem parsePrec_succ (f : Nat) (prec : Precedence) (st : PState) :
    parsePrec (f + 1) prec st =
      (if st.panicked then st
       else
        let st1 := PState.advance st
        match st1.previous with
        | none => st1
        | some t =>
          match (ruleOf t.token_type).prefixFn with
          | none => PState.errorPrev .expectedExpression st1
          | some pf =>
            let st2 :=
              match pf with
              | .number => PState.numberFn st1
              | .literal => PState.literalFn st1
              | .grouping => PState.groupingFn (fun s => parsePrec f .Assignment s) st1
              | .unary => PState.unaryFn (fun p s => parsePrec f p s) st1
            infixLoop (fun p s => parsePrec f p s) f prec st2) := rfl

/-- One-step unfolding of the infix loop. -/
theorem infixLoop_succ (recur : Precedence → PState → PState) (f : Nat)
    (prec : Precedence) (st : PState) :
    infixLoop recur (f + 1) prec st =
      (if st.panicked then st
       else if (PState.currentPrecedence st).rank < prec.rank then st
       else
        let st1 := PState.advance st
        match st1.previous with
        | none => st1
        | some t =>
          match (ruleOf t.token_type).infixFn with
          | some .binary => infixLoop recur f prec (PState.binaryFn recur st1)
          | none => infixLoop recur f prec st1) := rfl

/-- `advance` on an unpanicked state whose next scan yields a token. -/
theorem advance_tok {sc sc2 : Scanner} {prev cur : Option Token}
    {he pm : Bool} {ch : Chunk} {er : List ErrRec} {t : Token}
    (hscan : Scanner.scan_token sc = (.tok t, sc2)) :
    PState.advance ⟨sc, prev, cur, he, pm, ch, er, false⟩ =
      ⟨sc2, cur, some t, he, pm, ch, er, false⟩ := by
  unfold PState.advance
  rw [if_neg (by simp)]
  dsimp only
  rw [advanceLoop_succ]
  dsimp only
  rw [hscan]

/-- `advance` on an unpanicked state at end of input. -/
theorem advance_eof {sc sc2 : Scanner} {prev cur : Option Token}
    {he pm : Bool} {ch : Chunk} {er : List ErrRec}
    (hscan : Scanner.scan_token sc = (.eof, sc2)) :
    PState.advance ⟨sc, prev, cur, he, pm, ch, er, false⟩ =
      ⟨sc2, cur, none, he, pm, ch, er, false⟩ := by
  unfold PState.advance
  rw [if_neg (by simp)]
  dsimp only
  rw [advanceLoop_succ]
  dsimp only
  rw [hscan]

theorem takeWhile_append_all {p : Char → Bool} {l r : List Char}
    (hl : ∀ x ∈ l, p x = true) (hr : r.takeWhile p = []) :
    (l ++ r).takeWhile p = l := by
  induction l with
  | nil => simpa using hr
  | cons c cs ih =>
    rw [List.cons_append, List.takeWhile_cons, if_pos (hl c (List.mem_cons_self c cs))]
    rw [ih (fun x hx => hl x (List.mem_cons_of_mem c hx))]

theorem takeWhile_eq_nil_of_headD {p : Char → Bool} {r : List Char} {dflt : Char}
    (h : p (r.headD dflt) = false) : r.takeWhile p = [] := by
  rcases r with _ | ⟨r0, rs⟩
  · rfl
  · rw [List.headD_cons] at h
    rw [List.takeWhile_cons, if_neg (by simp [h])]

/-- `skip_whitespace` consumes a single leading space in front of a
non-whitespace, non-slash, non-newline character. -/
theorem skipWs_space {x : Char} {xs : List Char} {line : Nat}
    (hx : x.isWhitespace = false) (hsl : x ≠ '/') (hnl : x ≠ '\n') :
    Scanner.skipWs ⟨' ' :: x :: xs, line⟩ = ⟨x :: xs, line⟩ := by
  have hpred : ((' ' :: x :: xs).dropWhile fun c => c.isWhitespace && c != '\n') =
      x :: xs := by
    rw [List.dropWhile_cons, if_pos (by decide), List.dropWhile_cons,
      if_neg (by simp [hx])]
  unfold Scanner.skipWs
  simp only [Scanner.skipWhitespaceF]
  rw [hpred]
  split
  · rename_i rest2 heq
    exact absurd (List.cons.inj heq).1 hsl
  · rename_i rest2 heq
    exact absurd (List.cons.inj heq).1 hnl
  · rfl

/-- A leading space before a token is transparent to `scan_token`. -/
theorem scan_token_skip_space {x : Char} {xs : List Char} {line : Nat}
    (hx : x.isWhitespace = false) (hsl : x ≠ '/') (hnl : x ≠ '\n') :
    Scanner.scan_token ⟨' ' :: x :: xs, line⟩ = Scanner.scan_token ⟨x :: xs, line⟩ := by
  unfold Scanner.scan_token
  rw [skipWs_space hx hsl hnl, skipWs_noop rfl hx hsl hnl]

/-- `scan_token` on a nonempty all-digit span followed by a non-digit,
non-dot remainder yields exactly that span as a `Number` token. -/
theorem scan_number {da rest : List Char} {line : Nat} (hne : da ≠ [])
    (hdig : ∀ x ∈ da, x.isDigit = true)
    (hr1 : (rest.headD ' ').isDigit = false)
    (hr2 : rest.headD ' ' ≠ '.') :
    Scanner.scan_token ⟨da ++ rest, line⟩ =
      (.tok ⟨.Number, da, line⟩, ⟨rest, line⟩) := by
  rcases da with _ | ⟨d, ds⟩
  · exact absurd rfl hne
  · have hd : d.isDigit = true := hdig d (List.mem_cons_self d ds)
    have htw : (d :: (ds ++ rest)).takeWhile Char.isDigit = d :: ds := by
      rw [← List.cons_append]
      exact takeWhile_append_all hdig (@takeWhile_eq_nil_of_headD Char.isDigit rest ' ' hr1)
    rw [List.cons_append]
    unfold Scanner.scan_token
    rw [skipWs_noop rfl (digit_not_ws hd) (digit_ne_slash hd) (digit_ne_newline hd)]
    dsimp only
    rw [if_neg (by simp [digit_ne_quote hd]), if_pos hd]
    unfold Scanner.numberScan
    dsimp only
    rw [htw, ← List.cons_append, List.drop_left]
    rcases rest with _ | ⟨r0, rs⟩
    · simp
    · rw [List.headD_cons] at hr1 hr2
      dsimp only
      rw [if_neg (by simp [hr2])]
      rw [List.take_left, List.drop_left]

/-- `scan_token` at a two-character `!=` operator. -/
theorem scan_bang_equal (t : List Char) (line : Nat) :
    Scanner.scan_token ⟨'!' :: '=' :: t, line⟩ =
      (.tok ⟨.BangEqual, ['!', '='], line⟩, ⟨t, line⟩) := rfl

/-- `scan_token` at `==`. -/
theorem scan_equal_equal (t : List Char) (line : Nat) :
    Scanner.scan_token ⟨'=' :: '=' :: t, line⟩ =
      (.tok ⟨.EqualEqual, ['=', '='], line⟩, ⟨t, line⟩) := rfl

/-- `scan_token` at `!` followed by `(`. -/
theorem scan_bang_paren (t : List Char) (line : Nat) :
    Scanner.scan_token ⟨'!' :: '(' :: t, line⟩ =
      (.tok ⟨.Bang, ['!'], line⟩, ⟨'(' :: t, line⟩) := rfl

/-- `scan_token` at `(`. -/
theorem scan_lparen (t : List Char) (line : Nat) :
    Scanner.scan_token ⟨'(' :: t, line⟩ =
      (.tok ⟨.LeftParen, ['('], line⟩, ⟨t, line⟩) := rfl

/-- `scan_token` at `)`. -/
theorem scan_rparen (t : List Char) (line : Nat) :
    Scanner.scan_token ⟨')' :: t, line⟩ =
      (.tok ⟨.RightParen, [')'], line⟩, ⟨t, line⟩) := rfl

/-- `scan_token` at end of input. -/
theorem scan_eof (line : Nat) :
    Scanner.scan_token ⟨[], line⟩ = (.eof, ⟨[], line⟩) := rfl

/-- The common chunk both C5 sources compile to when the operands are
number literals `a` and `b`: push `a`, push `b`, `Equal`, `Not`, `Return`. -/
def neqChunk (a b : ℚ) : Chunk :=
  ⟨[.Constant 0, .Constant 1, .Equal, .Not, .Return], [1, 1, 1, 1, 1],
   [.number a, .number b]⟩

/-- Compiling `da != db` (spaces around the operator) for nonempty
all-digit operand spans yields exactly `neqChunk`. -/
theorem compile_neq {da db : List Char} (hda : da ≠ []) (hdb : db ≠ [])
    (hdiga : ∀ x ∈ da, x.isDigit = true) (hdigb : ∀ x ∈ db, x.isDigit = true) :
    compileChars (da ++ (' ' :: '!' :: '=' :: ' ' :: db)) =
      .ok (neqChunk (numParse da) (numParse db)) := by
  have hs1 : Scanner.scan_token ⟨da ++ (' ' :: '!' :: '=' :: ' ' :: db), 1⟩ =
      (.tok ⟨.Number, da, 1⟩, ⟨' ' :: '!' :: '=' :: ' ' :: db, 1⟩) :=
    scan_number hda hdiga (by rw [List.headD_cons]; decide)
      (by rw [List.headD_cons]; decide)
  have hs2 : Scanner.scan_token ⟨' ' :: '!' :: '=' :: ' ' :: db, 1⟩ =
      (.tok ⟨.BangEqual, ['!', '='], 1⟩, ⟨' ' :: db, 1⟩) := by
    rw [scan_token_skip_space (by decide) (by decide) (by decide)]
    exact scan_bang_equal (' ' :: db) 1
  have hs3 : Scanner.scan_token ⟨' ' :: db, 1⟩ =
      (.tok ⟨.Number, db, 1⟩, ⟨[], 1⟩) := by
    rcases db with _ | ⟨e, es⟩
    · exact absurd rfl hdb
    · have he : e.isDigit = true := hdigb e (List.mem_cons_self e es)
      rw [scan_token_skip_space (digit_not_ws he) (digit_ne_slash he)
        (digit_ne_newline he)]
      have h := @scan_number (e :: es) ([] : List Char) 1
        (by simp) hdigb (by decide) (by decide)
      rwa [List.append_nil] at h
  have hs4 : Scanner.scan_token ⟨([] : List Char), 1⟩ = (.eof, ⟨[], 1⟩) := scan_eof 1
  have hp1 : ∀ k, parsePrec (k + 1 + 1) .Comparison
      ⟨⟨[], 1⟩, some ⟨.BangEqual, ['!', '='], 1⟩, some ⟨.Number, db, 1⟩, false, false,
       ⟨[.Constant 0], [1], [.number (numParse da)]⟩, [], false⟩ =
      ⟨⟨[], 1⟩, some ⟨.Number, db, 1⟩, none, false, false,
       ⟨[.Constant 0, .Constant 1], [1, 1],
        [.number (numParse da), .number (numParse db)]⟩, [], false⟩ := by
    intro k
    rw [parsePrec_succ]
    simp [advance_eof hs4, ruleOf, PState.numberFn, PState.emitConstant,
      Chunk.add_constant, PState.emit, Chunk.write]
    rw [infixLoop_succ]
    simp [PState.currentPrecedence, Precedence.rank]
  have hp2 : ∀ k, parsePrec (k + 1 + 1 + 1) .Assignment
      ⟨⟨' ' :: '!' :: '=' :: ' ' :: db, 1⟩, none, some ⟨.Number, da, 1⟩, false, false,
       ⟨[], [], []⟩, [], false⟩ =
      ⟨⟨[], 1⟩, some ⟨.Number, db, 1⟩, none, false, false,
       ⟨[.Constant 0, .Constant 1, .Equal, .Not], [1, 1, 1, 1],
        [.number (numParse da), .number (numParse db)]⟩, [], false⟩ := by
    intro k
    rw [parsePrec_succ]
    simp [advance_tok hs2, ruleOf, PState.numberFn, PState.emitConstant,
      Chunk.add_constant, PState.emit, Chunk.write]
    rw [infixLoop_succ]
    simp [PState.currentPrecedence, ruleOf, Precedence.rank, advance_tok hs3,
      PState.binaryFn, Precedence.below]
    rw [hp1]
    simp [PState.emit, Chunk.write]
    rw [infixLoop_succ]
    simp [PState.currentPrecedence, Precedence.rank]
  have h0 : PState.new (da ++ (' ' :: '!' :: '=' :: ' ' :: db)) =
      ⟨⟨' ' :: '!' :: '=' :: ' ' :: db, 1⟩, none, some ⟨.Number, da, 1⟩, false, false,
       ⟨[], [], []⟩, [], false⟩ := by
    unfold PState.new
    exact advance_tok hs1
  simp only [compileChars, h0]
  rw [show compileFuel (da ++ (' ' :: '!' :: '=' :: ' ' :: db)) =
    2 * (da ++ (' ' :: '!' :: '=' :: ' ' :: db)).length + 13 + 1 + 1 + 1 from rfl]
  rw [hp2]
  simp [PState.emit, Chunk.write, neqChunk]

/-- Compiling `!(da == db)` (spaces around the operator) for nonempty
all-digit operand spans yields the same `neqChunk`. -/
theorem compile_bang_eq {da db : List Char} (hda : da ≠ []) (hdb : db ≠ [])
    (hdiga : ∀ x ∈ da, x.isDigit = true) (hdigb : ∀ x ∈ db, x.isDigit = true) :
    compileChars ('!' :: '(' ::
        (da ++ (' ' :: '=' :: '=' :: ' ' :: (db ++ [')'])))) =
      .ok (neqChunk (numParse da) (numParse db)) := by
  have hs1 : Scanner.scan_token
      ⟨'!' :: '(' :: (da ++ (' ' :: '=' :: '=' :: ' ' :: (db ++ [')']))), 1⟩ =
      (.tok ⟨.Bang, ['!'], 1⟩,
       ⟨'(' :: (da ++ (' ' :: '=' :: '=' :: ' ' :: (db ++ [')']))), 1⟩) :=
    scan_bang_paren _ 1
  have hs2 : Scanner.scan_token
      ⟨'(' :: (da ++ (' ' :: '=' :: '=' :: ' ' :: (db ++ [')']))), 1⟩ =
      (.tok ⟨.LeftParen, ['('], 1⟩,
       ⟨da ++ (' ' :: '=' :: '=' :: ' ' :: (db ++ [')'])), 1⟩) :=
    scan_lparen _ 1
  have hs3 : Scanner.scan_token
      ⟨da ++ (' ' :: '=' :: '=' :: ' ' :: (db ++ [')'])), 1⟩ =
      (.tok ⟨.Number, da, 1⟩, ⟨' ' :: '=' :: '=' :: ' ' :: (db ++ [')']), 1⟩) :=
    scan_number hda hdiga (by rw [List.headD_cons]; decide)
      (by rw [List.headD_cons]; decide)
  have hs4 : Scanner.scan_token ⟨' ' :: '=' :: '=' :: ' ' :: (db ++ [')']), 1⟩ =
      (.tok ⟨.EqualEqual, ['=', '='], 1⟩, ⟨' ' :: (db ++ [')']), 1⟩) := by
    rw [scan_token_skip_space (by decide) (by decide) (by decide)]
    exact scan_equal_equal (' ' :: (db ++ [')'])) 1
  have hs5 : Scanner.scan_token ⟨' ' :: (db ++ [')']), 1⟩ =
      (.tok ⟨.Number, db, 1⟩, ⟨[')'], 1⟩) := by
    rcases db with _ | ⟨e, es⟩
    · exact absurd rfl hdb
    · have he : e.isDigit = true := hdigb e (List.mem_cons_self e es)
      rw [List.cons_append]
      rw [scan_token_skip_space (digit_not_ws he) (digit_ne_slash he)
        (digit_ne_newline he)]
      have h := @scan_number (e :: es) [')'] 1
        (by simp) hdigb (by decide) (by decide)
      rwa [List.cons_append] at h
  have hs6 : Scanner.scan_token ⟨[')'], 1⟩ =
      (.tok ⟨.RightParen, [')'], 1⟩, ⟨[], 1⟩) := scan_rparen [] 1
  have hs7 : Scanner.scan_token ⟨([] : List Char), 1⟩ = (.eof, ⟨[], 1⟩) := scan_eof 1
  have hq1 : ∀ k, parsePrec (k + 1 + 1) .Comparison
      ⟨⟨[')'], 1⟩, some ⟨.EqualEqual, ['=', '='], 1⟩, some ⟨.Number, db, 1⟩,
       false, false, ⟨[.Constant 0], [1], [.number (numParse da)]⟩, [], false⟩ =
      ⟨⟨[], 1⟩, some ⟨.Number, db, 1⟩, some ⟨.RightParen, [')'], 1⟩, false, false,
       ⟨[.Constant 0, .Constant 1], [1, 1],
        [.number (numParse da), .number (numParse db)]⟩, [], false⟩ := by
    intro k
    rw [parsePrec_succ]
    simp [advance_tok hs6, ruleOf, PState.numberFn, PState.emitConstant,
      Chunk.add_constant, PState.emit, Chunk.write]
    rw [infixLoop_succ]
    simp [PState.currentPrecedence, ruleOf, Precedence.rank]
  have hq2 : ∀ k, parsePrec (k + 1 + 1 + 1) .Assignment
      ⟨⟨' ' :: '=' :: '=' :: ' ' :: (db ++ [')']), 1⟩, some ⟨.LeftParen, ['('], 1⟩,
       some ⟨.Number, da, 1⟩, false, false, ⟨[], [], []⟩, [], false⟩ =
      ⟨⟨[], 1⟩, some ⟨.Number, db, 1⟩, some ⟨.RightParen, [')'], 1⟩, false, false,
       ⟨[.Constant 0, .Constant 1, .Equal], [1, 1, 1],
        [.number (numParse da), .number (numParse db)]⟩, [], false⟩ := by
    intro k
    rw [parsePrec_succ]
    simp [advance_tok hs4, ruleOf, PState.numberFn, PState.emitConstant,
      Chunk.add_constant, PState.emit, Chunk.write]
    rw [infixLoop_succ]
    simp [PState.currentPrecedence, ruleOf, Precedence.rank, advance_tok hs5,
      PState.binaryFn, Precedence.below]
    rw [hq1]
    simp [PState.emit, Chunk.write]
    rw [infixLoop_succ]
    simp [PState.currentPrecedence, ruleOf, Precedence.rank]
  have hq3 : ∀ k, parsePrec (k + 1 + 1 + 1 + 1) .Unary
      ⟨⟨da ++ (' ' :: '=' :: '=' :: ' ' :: (db ++ [')'])), 1⟩, some ⟨.Bang, ['!'], 1⟩,
       some ⟨.LeftParen, ['('], 1⟩, false, false, ⟨[], [], []⟩, [], false⟩ =
      ⟨⟨[], 1⟩, some ⟨.RightParen, [')'], 1⟩, none, false, false,
       ⟨[.Constant 0, .Constant 1, .Equal], [1, 1, 1],
        [.number (numParse da), .number (numParse db)]⟩, [], false⟩ := by
    intro k
    rw [parsePrec_succ]
    simp [advance_tok hs3, ruleOf, PState.groupingFn]
    rw [hq2]
    simp [PState.consume, advance_eof hs7]
    rw [infixLoop_succ]
    simp [PState.currentPrecedence, ruleOf, Precedence.rank]
  have hq4 : ∀ k, parsePrec (k + 1 + 1 + 1 + 1 + 1) .Assignment
      ⟨⟨'(' :: (da ++ (' ' :: '=' :: '=' :: ' ' :: (db ++ [')']))), 1⟩, none,
       some ⟨.Bang, ['!'], 1⟩, false, false, ⟨[], [], []⟩, [], false⟩ =
      ⟨⟨[], 1⟩, some ⟨.RightParen, [')'], 1⟩, none, false, false,
       ⟨[.Constant 0, .Constant 1, .Equal, .Not], [1, 1, 1, 1],
        [.number (numParse da), .number (numParse db)]⟩, [], false⟩ := by
    intro k
    rw [parsePrec_succ]
    simp [advance_tok hs2, ruleOf, PState.unaryFn]
    rw [hq3]
    simp [PState.emit, Chunk.write]
    rw [infixLoop_succ]
    simp [PState.currentPrecedence, Precedence.rank]
  have h0 : PState.new
      ('!' :: '(' :: (da ++ (' ' :: '=' :: '=' :: ' ' :: (db ++ [')'])))) =
      ⟨⟨'(' :: (da ++ (' ' :: '=' :: '=' :: ' ' :: (db ++ [')']))), 1⟩, none,
       some ⟨.Bang, ['!'], 1⟩, false, false, ⟨[], [], []⟩, [], false⟩ := by
    unfold PState.new
    exact advance_tok hs1
  simp only [compileChars, h0]
  rw [show compileFuel
      ('!' :: '(' :: (da ++ (' ' :: '=' :: '=' :: ' ' :: (db ++ [')'])))) =
    2 * ('!' :: '(' :: (da ++ (' ' :: '=' :: '=' :: ' ' :: (db ++ [')'])))).length
      + 11 + 1 + 1 + 1 + 1 + 1 from rfl]
  rw [hq4]
  simp [PState.emit, Chunk.write, neqChunk]

/-! Helpers for C10: the checked paths never reach a `Value`-operator panic. -/

theorem neg_isSome (v : Value) (h : v.isNumber = true) : (Value.neg v).isSome := by
  cases v <;> simp_all [Value.isNumber, Value.neg]

theorem add_isSome (a b : Value) (ha : a.isNumber = true) (hb : b.isNumber = true) :
    (Value.add a b).isSome := by
  cases a <;> cases b <;> simp_all [Value.isNumber, Value.add]

theorem sub_isSome (a b : Value) (ha : a.isNumber = true) (hb : b.isNumber = true) :
    (Value.sub a b).isSome := by
  cases a <;> cases b <;> simp_all [Value.isNumber, Value.sub]

theorem mul_isSome (a b : Value) (ha : a.isNumber = true) (hb : b.isNumber = true) :
    (Value.mul a b).isSome := by
  cases a <;> cases b <;> simp_all [Value.isNumber, Value.mul]

theorem div_isSome (a b : Value) (ha : a.isNumber = true) (hb : b.isNumber = true) :
    (Value.div a b).isSome := by
  cases a <;> cases b <;> simp_all [Value.isNumber, Value.div]

theorem isValueOpPanic_runtimeError (c : Chunk) (st : VmSt) (msg : String) :
    isValueOpPanic (runtimeError c st msg) = false := by
  unfold runtimeError
  split <;> rfl

theorem isValueOpPanic_binaryOp (c : Chunk) (st : VmSt)
    (f : Value → Value → Option Value)
    (hf : ∀ a b, a.isNumber = true → b.isNumber = true → (f a b).isSome) :
    isValueOpPanic (binaryOp c st f) = false := by
  unfold binaryOp
  rcases hst : st.stack with _ | ⟨b, _ | ⟨a, rest⟩⟩
  · rfl
  · rfl
  · dsimp only
    by_cases hcond : (b.isNumber && a.isNumber) = true
    · rw [if_pos hcond]
      rw [Bool.and_eq_true] at hcond
      rcases hsome : f a b with _ | r
      · exact absurd (hf a b hcond.2 hcond.1) (by simp [hsome])
      · rfl
    · rw [if_neg hcond]
      exact isValueOpPanic_runtimeError c _ _

/-- C1: interpreting `(-1 + 2) * 3 - -4` succeeds: the compiled chunk's
execution prints `7` to the diagnostic stream and `interpret` returns the
success outcome (which the driver maps to exit code 0). -/
theorem c1_seven_exit_zero :
    interpretSource "(-1 + 2) * 3 - -4" = .ok ⟨10, [], ["7"]⟩ := by decide

/-- C2 (failing input): `1 +` compiles *without error* — the parser's
silent `None => return` at end of input swallows the missing operand — to
the chunk `[Constant 0, Add, Return]`, and executing it panics (pops a
stack of one value twice at `Add`) instead of reaching `Return` with
exactly one value. -/
theorem c2_failing_input_one_plus :
    compileChars "1 +".data =
      .ok ⟨[.Constant 0, .Add, .Return], [1, 0, 0], [.number 1]⟩ ∧
    interpretSource "1 +" = .panicked :=
  ⟨by decide, by decide⟩

/-- C3 (failing input): on `nil + 1` the `Add` type check fails and the VM
reports the *misspelled* message `Opernds must be numbers` (the claim and
the spec say `Operands must be numbers`), then the `[line 1] in script`
report; the stack is cleared and the outcome is `RuntimeError`. -/
theorem c3_failing_input_nil_plus_one :
    interpretSource "nil + 1" =
      .runtimeError ⟨3, [], ["Opernds must be numbers", "[line 1] in script"]⟩ := by
  decide

/-- C4 (failing input): compiling the empty source reports *no* error and
returns `Ok` with the chunk containing only `Return` (the silent
end-of-input return in `parse_precedence`); the chunk is handed to the VM,
which then panics popping the empty stack. -/
theorem c4_failing_input_empty :
    compileChars [] = .ok ⟨[.Return], [0], []⟩ ∧ interpretChars [] = .panicked :=
  ⟨by decide, by decide⟩

/-- C5 (counterexample): with operand expressions `a = 1` and `b = 2 == 3`,
interpreting `a != b` prints `false` while interpreting `!(a == b)` prints
`true` — textual substitution re-associates the equality operators, so the
claim fails for compound operands. -/
theorem c5_counterexample_reassociation :
    interpretSource "1 != 2 == 3" = .ok ⟨7, [], ["false"]⟩ ∧
    interpretSource "!(1 == 2 == 3)" = .ok ⟨7, [], ["true"]⟩ :=
  ⟨by decide, by decide⟩

/-- C5 (amended): for *number-literal* operands — nonempty all-digit spans
`da` and `db` — interpreting `da != db` yields the same printed result and
outcome as interpreting `!(da == db)`: both compile to the identical chunk
`da, db, Equal, Not, Return`, so the whole interpretation coincides. (For
compound operands the textual substitution re-associates; see the
counterexample.) -/
theorem c5_literal_operands_equivalence (da db : List Char)
    (hda : da ≠ []) (hdb : db ≠ [])
    (hdiga : ∀ x ∈ da, x.isDigit = true) (hdigb : ∀ x ∈ db, x.isDigit = true) :
    interpretChars (da ++ (' ' :: '!' :: '=' :: ' ' :: db)) =
      interpretChars ('!' :: '(' ::
        (da ++ (' ' :: '=' :: '=' :: ' ' :: (db ++ [')'])))) := by
  unfold interpretChars
  rw [compile_neq hda hdb hdiga hdigb, compile_bang_eq hda hdb hdiga hdigb]

/-- Witness for C5 at the operands `1` and `2`: `1 != 2` and `!(1 == 2)`
interpret identically (both print `true`). -/
theorem c5_literal_operands_equivalence_witness :
    interpretChars (['1'] ++ (' ' :: '!' :: '=' :: ' ' :: ['2'])) =
      interpretChars ('!' :: '(' ::
        (['1'] ++ (' ' :: '=' :: '=' :: ' ' :: (['2'] ++ [')'])))) ∧
    interpretChars (['1'] ++ (' ' :: '!' :: '=' :: ' ' :: ['2'])) =
      .ok ⟨5, [], ["true"]⟩ :=
  ⟨c5_literal_operands_equivalence ['1'] ['2'] (by decide) (by decide)
      (by decide) (by decide),
   by decide⟩

/-- C6 (counterexample): scanning the two-line string literal source
`"a\nb"` (opening quote on line 1) yields the String token carrying line 2
— the scanner's counter after the embedded newline, i.e. the line of the
*closing* quote, not the line of the token's first character. -/
theorem c6_counterexample :
    Scanner.scan_token ⟨"\"a\nb\"".data, 1⟩ =
      (.tok ⟨.String, "\"a\nb\"".data, 2⟩, ⟨[], 2⟩) ∧ (1 : Nat) ≠ 2 :=
  ⟨by decide, by decide⟩

/-- C6 (amended): every token returned by `scan_token` carries the line
counter as it stands when the token is *made*: the line of the token's
first character (the counter after `skip_whitespace`) plus the number of
newlines embedded in the span. Only multi-line string literals have a
non-zero newline count, so every other token carries the line of its first
character, while such strings carry the closing-quote line. -/
theorem c6_token_line (sc : Scanner) (t : Token) (sc2 : Scanner)
    (h : Scanner.scan_token sc = (.tok t, sc2)) :
    t.line = (Scanner.skipWs sc).line + t.span.count '\n' := by
  unfold Scanner.scan_token at h
  dsimp only at h
  rcases hsrc : (Scanner.skipWs sc).source with _ | ⟨ch, rest⟩
  · rw [hsrc] at h
    exact absurd h (by simp)
  · rw [hsrc] at h
    dsimp only at h
    by_cases h1 : (ch == '"') = true
    · rw [if_pos h1] at h
      unfold Scanner.stringScan at h
      rw [hsrc] at h
      dsimp only at h
      rcases hsb : Scanner.strBody rest with ⟨ko, m⟩
      rw [hsb] at h
      rcases ko with _ | k
      · exact absurd h (by simp)
      · dsimp only at h
        obtain ⟨ht, hsc⟩ := Prod.mk.injEq .. ▸ h
        obtain rfl := ScanOut.tok.inj ht
        rw [beq_iff_eq] at h1
        subst h1
        dsimp only
        rw [List.take_succ_cons, List.count_cons, ← strBody_some_count hsb]
        simp
    · rw [if_neg h1] at h
      by_cases h2 : ch.isDigit = true
      · rw [if_pos h2] at h
        obtain ⟨hl, hc⟩ := numberScan_result h
        rw [hl, hc]
        simp
      · rw [if_neg h2] at h
        by_cases h3 : Scanner.isAlphaUnder ch = true
        · rw [if_pos h3] at h
          obtain ⟨hl, hsp⟩ := identifierScan_result h
          rw [hl]
          have hz : t.span.count '\n' = 0 := by
            apply count_newline_eq_zero
            intro x hx
            rcases hsp x hx with h0 | hid
            · rw [hsrc, List.headD_cons] at h0
              subst h0
              exact alphaUnder_ne_newline h3
            · exact identChar_ne_newline hid
          rw [hz]
          simp
        · rw [if_neg h3] at h
          by_cases h4 : (ch == '!' && rest.headD '\x00' == '=') = true
          · rw [if_pos h4] at h
            obtain rfl := mkTok_result h
            obtain ⟨ha, hb⟩ := Bool.and_eq_true .. ▸ h4
            rw [beq_iff_eq] at ha
            subst ha
            rcases rest with _ | ⟨r, rs⟩
            · rw [List.headD_nil] at hb
              exact absurd hb (by decide)
            · rw [List.headD_cons, beq_iff_eq] at hb
              subst hb
              simp [hsrc]
          · rw [if_neg h4] at h
            by_cases h5 : (ch == '=' && rest.headD '\x00' == '=') = true
            · rw [if_pos h5] at h
              obtain rfl := mkTok_result h
              obtain ⟨ha, hb⟩ := Bool.and_eq_true .. ▸ h5
              rw [beq_iff_eq] at ha
              subst ha
              rcases rest with _ | ⟨r, rs⟩
              · rw [List.headD_nil] at hb
                exact absurd hb (by decide)
              · rw [List.headD_cons, beq_iff_eq] at hb
                subst hb
                simp [hsrc]
            · rw [if_neg h5] at h
              by_cases h6 : (ch == '<' && rest.headD '\x00' == '=') = true
              · rw [if_pos h6] at h
                obtain rfl := mkTok_result h
                obtain ⟨ha, hb⟩ := Bool.and_eq_true .. ▸ h6
                rw [beq_iff_eq] at ha
                subst ha
                rcases rest with _ | ⟨r, rs⟩
                · rw [List.headD_nil] at hb
                  exact absurd hb (by decide)
                · rw [List.headD_cons, beq_iff_eq] at hb
                  subst hb
                  simp [hsrc]
              · rw [if_neg h6] at h
                by_cases h7 : (ch == '>' && rest.headD '\x00' == '=') = true
                · rw [if_pos h7] at h
                  obtain rfl := mkTok_result h
                  obtain ⟨ha, hb⟩ := Bool.and_eq_true .. ▸ h7
                  rw [beq_iff_eq] at ha
                  subst ha
                  rcases rest with _ | ⟨r, rs⟩
                  · rw [List.headD_nil] at hb
                    exact absurd hb (by decide)
                  · rw [List.headD_cons, beq_iff_eq] at hb
                    subst hb
                    simp [hsrc]
                · rw [if_neg h7] at h
                  by_cases h8 : (ch == '(') = true
                  · rw [if_pos h8] at h
                    obtain rfl := mkTok_result h
                    rw [beq_iff_eq] at h8
                    subst h8
                    simp [hsrc]
                  · rw [if_neg h8] at h
                    by_cases h9 : (ch == ')') = true
                    · rw [if_pos h9] at h
                      obtain rfl := mkTok_result h
                      rw [beq_iff_eq] at h9
                      subst h9
                      simp [hsrc]
                    · rw [if_neg h9] at h
                      by_cases h10 : (ch == '{') = true
                      · rw [if_pos h10] at h
                        obtain rfl := mkTok_result h
                        rw [beq_iff_eq] at h10
                        subst h10
                        simp [hsrc]
                      · rw [if_neg h10] at h
                        by_cases h11 : (ch == '}') = true
                        · rw [if_pos h11] at h
                          obtain rfl := mkTok_result h
                          rw [beq_iff_eq] at h11
                          subst h11
                          simp [hsrc]
                        · rw [if_neg h11] at h
                          by_cases h12 : (ch == ';') = true
                          · rw [if_pos h12] at h
                            obtain rfl := mkTok_result h
                            rw [beq_iff_eq] at h12
                            subst h12
                            simp [hsrc]
                          · rw [if_neg h12] at h
                            by_cases h13 : (ch == ',') = true
                            · rw [if_pos h13] at h
                              obtain rfl := mkTok_result h
                              rw [beq_iff_eq] at h13
                              subst h13
                              simp [hsrc]
                            · rw [if_neg h13] at h
                              by_cases h14 : (ch == '.') = true
                              · rw [if_pos h14] at h
                                obtain rfl := mkTok_result h
                                rw [beq_iff_eq] at h14
                                subst h14
                                simp [hsrc]
                              · rw [if_neg h14] at h
                                by_cases h15 : (ch == '-') = true
                                · rw [if_pos h15] at h
                                  obtain rfl := mkTok_result h
                                  rw [beq_iff_eq] at h15
                                  subst h15
                                  simp [hsrc]
                                · rw [if_neg h15] at h
                                  by_cases h16 : (ch == '+') = true
                                  · rw [if_pos h16] at h
                                    obtain rfl := mkTok_result h
                                    rw [beq_iff_eq] at h16
                                    subst h16
                                    simp [hsrc]
                                  · rw [if_neg h16] at h
                                    by_cases h17 : (ch == '/') = true
                                    · rw [if_pos h17] at h
                                      obtain rfl := mkTok_result h
                                      rw [beq_iff_eq] at h17
                                      subst h17
                                      simp [hsrc]
                                    · rw [if_neg h17] at h
                                      by_cases h18 : (ch == '*') = true
                                      · rw [if_pos h18] at h
                                        obtain rfl := mkTok_result h
                                        rw [beq_iff_eq] at h18
                                        subst h18
                                        simp [hsrc]
                                      · rw [if_neg h18] at h
                                        by_cases h19 : (ch == '!') = true
                                        · rw [if_pos h19] at h
                                          obtain rfl := mkTok_result h
                                          rw [beq_iff_eq] at h19
                                          subst h19
                                          simp [hsrc]
                                        · rw [if_neg h19] at h
                                          by_cases h20 : (ch == '=') = true
                                          · rw [if_pos h20] at h
                                            obtain rfl := mkTok_result h
                                            rw [beq_iff_eq] at h20
                                            subst h20
                                            simp [hsrc]
                                          · rw [if_neg h20] at h
                                            by_cases h21 : (ch == '<') = true
                                            · rw [if_pos h21] at h
                                              obtain rfl := mkTok_result h
                                              rw [beq_iff_eq] at h21
                                              subst h21
                                              simp [hsrc]
                                            · rw [if_neg h21] at h
                                              by_cases h22 : (ch == '>') = true
                                              · rw [if_pos h22] at h
                                                obtain rfl := mkTok_result h
                                                rw [beq_iff_eq] at h22
                                                subst h22
                                                simp [hsrc]
                                              · rw [if_neg h22] at h
                                                exact absurd h (by simp)

/-- Witness for C6 at the two-line string literal. -/
theorem c6_token_line_witness :
    (⟨TokenType.String, "\"a\nb\"".data, 2⟩ : Token).line =
      (Scanner.skipWs ⟨"\"a\nb\"".data, 1⟩).line + ("\"a\nb\"".data.count '\n') :=
  c6_token_line ⟨"\"a\nb\"".data, 1⟩ ⟨.String, "\"a\nb\"".data, 2⟩ ⟨[], 2⟩ (by decide)

/-- C7: every chunk produced by a successful compile has `code` and `lines`
of equal length, and every `Constant` operand is a valid index into
`constants`. -/
theorem c7_compiled_chunk_wellformed (src : List Char) (c : Chunk)
    (h : compileChars src = .ok c) :
    c.code.length = c.lines.length ∧
    ∀ id, OpCode.Constant id ∈ c.code → id < c.constants.length :=
  (compile_ok_inv h).1

/-- Witness for C7 at the source `1`. -/
theorem c7_compiled_chunk_wellformed_witness :
    (⟨[.Constant 0, .Return], [1, 1], [.number 1]⟩ : Chunk).code.length =
      (⟨[.Constant 0, .Return], [1, 1], [.number 1]⟩ : Chunk).lines.length ∧
    ∀ id, OpCode.Constant id ∈
        (⟨[.Constant 0, .Return], [1, 1], [.number 1]⟩ : Chunk).code →
      id < (⟨[.Constant 0, .Return], [1, 1], [.number 1]⟩ : Chunk).constants.length :=
  c7_compiled_chunk_wellformed "1".data _ (by decide)

/-- C8 (amended, positive part): `add_constant` returns the pool length
*before* the append (ids are assigned sequentially from 0) while the pool
stays within 255 entries, and every successfully compiled chunk has at most
256 constants. -/
theorem c8_constant_pool :
    (∀ (c : Chunk) (v : Value), c.constants.length ≤ 255 →
        c.add_constant v =
          (some c.constants.length, { c with constants := c.constants ++ [v] })) ∧
    (∀ (src : List Char) (c : Chunk),
        compileChars src = .ok c → c.constants.length ≤ 256) := by
  refine ⟨?_, ?_⟩
  · intro c v h
    rw [add_constant_eq]
    simp [h]
  · intro src c h
    exact (compile_ok_inv h).2

set_option maxRecDepth 1000000 in
set_option maxHeartbeats 4000000 in
/-- C8 (counterexample): compiling a source with 257 distinct numeric
literals (`1+2+…+257`) neither errors cleanly nor respects the cap — it
*panics* at the failing `usize → u8` conversion in `add_constant`. -/
theorem c8_overflow_counterexample :
    compileChars overflowSrc = .panicked := by
  decide

/-- Witness for C8: the first id handed out on an empty pool is 0, and the
chunk compiled from `1` respects the pool cap. -/
theorem c8_constant_pool_witness :
    Chunk.add_constant ⟨[], [], []⟩ .nil = (some 0, ⟨[], [], [.nil]⟩) ∧
    (⟨[.Constant 0, .Return], [1, 1], [.number 1]⟩ : Chunk).constants.length ≤ 256 :=
  ⟨c8_constant_pool.1 ⟨[], [], []⟩ .nil (by decide),
   c8_constant_pool.2 "1".data _ (by decide)⟩

/-- C9 (counterexample): scanning the source `nil` — a keyword span that
runs to the very end of the input — *panics* (the `unwrap` inside
`Scanner::identifier`) instead of returning the `Nil` reserved-word token. -/
theorem c9_counterexample :
    Scanner.scan_token ⟨"nil".data, 1⟩ = (.panicked, ⟨"nil".data, 1⟩) := by
  decide

/-- C9 (amended): for every identifier span (a maximal run of
`[A-Za-z0-9_]` starting with a letter or underscore) that is followed by
at least one further character, the scanner returns the span as a token
classified by the spec's sixteen-keyword lookup `kwSpec`: the
reserved-word kind iff the span is character-for-character one of the
sixteen keywords, and `Identifier` otherwise. (An identifier running to
the end of the source makes the scanner panic instead — see the
counterexample.) -/
theorem c9_keyword_classification (sc : Scanner) (c : Char) (rest : List Char)
    (hsrc : sc.source = c :: rest)
    (hc : Scanner.isAlphaUnder c = true)
    (hrest : rest.dropWhile Scanner.isIdentChar ≠ []) :
    Scanner.scan_token sc =
      (.tok ⟨kwSpec (c :: rest.takeWhile Scanner.isIdentChar),
             c :: rest.takeWhile Scanner.isIdentChar, sc.line⟩,
       ⟨rest.dropWhile Scanner.isIdentChar, sc.line⟩) := by
  have hws := alphaUnder_not_ws hc
  have hq := alphaUnder_ne_quote hc
  have hd := alphaUnder_not_digit hc
  have hsl := alphaUnder_ne_slash hc
  have hnl := alphaUnder_ne_newline hc
  have hskip : Scanner.skipWs sc = sc := skipWs_noop hsrc hws hsl hnl
  unfold Scanner.scan_token
  rw [hskip]
  dsimp only
  rw [hsrc]
  dsimp only
  rw [if_neg (by simp [hq]), if_neg (by simp [hd]), if_pos hc]
  unfold Scanner.identifierScan
  rw [hsrc]
  dsimp only
  rcases hdw : rest.dropWhile Scanner.isIdentChar with _ | ⟨d, ds⟩
  · exact absurd hdw hrest
  · dsimp only
    rw [Nat.add_comm 1, List.take_succ_cons, take_takeWhile,
      List.drop_succ_cons, drop_takeWhile, hdw,
      identifier_type_eq_kwSpec]

/-- Witness for C9 at the source `while+`. -/
theorem c9_keyword_classification_witness :
    Scanner.scan_token ⟨"while+".data, 1⟩ =
      (.tok ⟨kwSpec ('w' :: "hile+".data.takeWhile Scanner.isIdentChar),
             'w' :: "hile+".data.takeWhile Scanner.isIdentChar, 1⟩,
       ⟨"hile+".data.dropWhile Scanner.isIdentChar, 1⟩) :=
  c9_keyword_classification ⟨"while+".data, 1⟩ 'w' "hile+".data (by decide)
    (by decide) (by decide)

/-- C10: for every chunk and every VM state, a single step of the run loop
never reaches the panicking non-`Number` arms of the `Value` operators:
`Negate` and the four arithmetic instructions check the operand tags via
`peek` before invoking the operator. -/
theorem c10_value_op_panic_unreachable (c : Chunk) (st : VmSt) :
    isValueOpPanic (step c st) = false := by
  unfold step
  split
  · rfl
  · rename_i op hop
    cases op with
    | Constant id => dsimp only; split <;> rfl
    | Nil => rfl
    | True => rfl
    | False => rfl
    | Return => dsimp only; split <;> rfl
    | Not => dsimp only; split <;> rfl
    | Equal => dsimp only; split <;> rfl
    | Negate =>
      dsimp only
      split
      · rename_i v rest heq
        by_cases hv : v.isNumber = true
        · rw [if_pos hv]
          rcases hneg : v.neg with _ | r
          · exact absurd (neg_isSome v hv) (by simp [hneg])
          · rfl
        · rw [if_neg hv]
          exact isValueOpPanic_runtimeError c _ _
      · rfl
    | Add => exact isValueOpPanic_binaryOp _ _ _ add_isSome
    | Substract => exact isValueOpPanic_binaryOp _ _ _ sub_isSome
    | Multiply => exact isValueOpPanic_binaryOp _ _ _ mul_isSome
    | Divide => exact isValueOpPanic_binaryOp _ _ _ div_isSome
    | Greater =>
      dsimp only
      split
      · split
        · rfl
        · exact isValueOpPanic_runtimeError c _ _
      · rfl
    | Less =>
      dsimp only
      split
      · split
        · rfl
        · exact isValueOpPanic_runtimeError c _ _
      · rfl

end RsLox
